import Mathlib

/-!
Verification of the recovered-media curation pipeline
(`recoveryTools/`): shallow embedding of `cleanRecoveredFiles.py`,
`sortImagesByResolution.py`, `dedupeImages.py`, `filterBlackImages.py`
and `dedupeVideos.py`, with theorems settling the spec claims.

File contents are modelled as natural numbers and the SHA-256 digest of
a file as the content itself (the spec treats digest equality as
byte-identity with cryptographic-strength confidence).  Fallible
operations (hashing a file, decoding an image) are modelled with
`Option`.  Rational numbers stand in for the float thresholds, which
the code only ever compares.
-/

namespace Recovery

/-! ### Decimal rendering of naturals (Python `f"{i}"`) -/

/-- Numeric value of a decimal digit character. -/
def charVal (c : Char) : Nat := c.toNat - 48

/-- Value of a big-endian decimal digit string. -/
def decVal (l : List Char) : Nat := l.foldl (fun a c => a * 10 + charVal c) 0

/-- Big-endian decimal digits of `n`, with explicit fuel (structural
recursion mirroring repeated division by 10). -/
def decDigitsAux : Nat → Nat → List Char
  | 0, _ => []
  | fuel + 1, n =>
    if n < 10 then [Nat.digitChar n]
    else decDigitsAux fuel (n / 10) ++ [Nat.digitChar (n % 10)]

/-- Decimal rendering of a natural number, as Python renders `i` in an
f-string. -/
def natToDec (n : Nat) : String := ⟨decDigitsAux (n + 1) n⟩

theorem charVal_digitChar {n : Nat} (h : n < 10) : charVal (Nat.digitChar n) = n := by
  interval_cases n <;> decide

theorem decVal_append_singleton (l : List Char) (c : Char) :
    decVal (l ++ [c]) = decVal l * 10 + charVal c := by
  simp [decVal, List.foldl_append]

theorem decVal_decDigitsAux : ∀ fuel n, n < fuel → decVal (decDigitsAux fuel n) = n := by
  intro fuel
  induction fuel with
  | zero => intro n h; omega
  | succ fuel ih =>
    intro n h
    by_cases h10 : n < 10
    · simp [decDigitsAux, h10, decVal, charVal_digitChar h10]
    · have hdiv : n / 10 < n := Nat.div_lt_self (by omega) (by omega)
      have : n / 10 < fuel := by omega
      simp only [decDigitsAux, h10, if_false, decVal_append_singleton, ih _ this,
        charVal_digitChar (Nat.mod_lt n (show 0 < 10 by omega))]
      omega

theorem natToDec_injective : Function.Injective natToDec := by
  intro m n h
  have hd : decDigitsAux (m + 1) m = decDigitsAux (n + 1) n := congrArg String.data h
  have hm := decVal_decDigitsAux (m + 1) m (by omega)
  have hn := decVal_decDigitsAux (n + 1) n (by omega)
  rw [← hm, ← hn, hd]

/-! ### Indexed names and the collision-avoidance probe

All the scripts build collision-free names by appending `_1`, `_2`, …
before the extension: `f"{stem}_{i}{suffix}"`. -/

/-- The name `f"{stem}_{i}{suffix}"`. -/
def mkIndexedName (stem : String) (i : Nat) (suffix : String) : String :=
  stem ++ "_" ++ natToDec i ++ suffix

theorem mkIndexedName_injective (stem suffix : String) :
    Function.Injective (fun i => mkIndexedName stem i suffix) := by
  intro i j h
  simp only [mkIndexedName] at h
  have hd : stem.data ++ '_' :: ((natToDec i).data ++ suffix.data)
      = stem.data ++ '_' :: ((natToDec j).data ++ suffix.data) := by
    have := congrArg String.data h
    simpa [String.data_append] using this
  have h1 : (natToDec i).data ++ suffix.data = (natToDec j).data ++ suffix.data := by
    have h' := List.append_cancel_left hd
    exact (List.cons_injective.eq_iff.mp h')
  have h2 : (natToDec i).data = (natToDec j).data := List.append_cancel_right h1
  exact natToDec_injective (by
    cases hni : natToDec i with
    | mk di =>
      cases hnj : natToDec j with
      | mk dj =>
        have : di = dj := by
          have := h2
          rw [hni, hnj] at this
          exact this
        simp [this])

variable {α : Type} [DecidableEq α]

/-- `firstFree cand occ i fuel` probes indices `i, i+1, …` (up to
`fuel` probes) and returns the first `k` with `cand k` not occupied:
the `while target.exists(): i += 1` loop of the Python scripts. -/
def firstFree (cand : Nat → α) (occ : List α) : Nat → Nat → Nat
  | i, 0 => i
  | i, fuel + 1 => if cand i ∈ occ then firstFree cand occ (i + 1) fuel else i

theorem firstFree_spec (cand : Nat → α) (occ : List α) :
    ∀ fuel i, (∃ k, i ≤ k ∧ k < i + fuel ∧ cand k ∉ occ) →
      cand (firstFree cand occ i fuel) ∉ occ := by
  intro fuel
  induction fuel with
  | zero => intro i ⟨k, h1, h2, _⟩; omega
  | succ fuel ih =>
    intro i ⟨k, h1, h2, h3⟩
    by_cases hm : cand i ∈ occ
    · simp only [firstFree, hm, if_true]
      apply ih
      refine ⟨k, ?_, by omega, h3⟩
      rcases Nat.eq_or_lt_of_le h1 with h | h
      · exact absurd (h ▸ hm) h3
      · omega
    · simp only [firstFree, hm, if_false]
      exact not_false

theorem exists_free (cand : Nat → α) (occ : List α)
    (hinj : Function.Injective cand) (i : Nat) :
    ∃ k, i ≤ k ∧ k < i + (occ.length + 1) ∧ cand k ∉ occ := by
  by_contra hcon
  push_neg at hcon
  have hall : ∀ j, j < occ.length + 1 → cand (i + j) ∈ occ := by
    intro j hj
    exact hcon (i + j) (by omega) (by omega)
  have hsub : ((Finset.range (occ.length + 1)).image (fun j => cand (i + j)))
      ⊆ occ.toFinset := by
    intro x hx
    simp only [Finset.mem_image, Finset.mem_range] at hx
    obtain ⟨j, hj, rfl⟩ := hx
    exact List.mem_toFinset.mpr (hall j hj)
  have hcard : ((Finset.range (occ.length + 1)).image (fun j => cand (i + j))).card
      = occ.length + 1 := by
    rw [Finset.card_image_of_injective _ (fun a b hab => by
      have := hinj hab; omega)]
    simp
  have := Finset.card_le_card hsub
  rw [hcard] at this
  have := occ.toFinset_card_le
  omega

theorem firstFree_not_mem (cand : Nat → α) (occ : List α)
    (hinj : Function.Injective cand) (i : Nat) :
    cand (firstFree cand occ i (occ.length + 1)) ∉ occ :=
  firstFree_spec cand occ _ i (exists_free cand occ hinj i)

/-- `resolveName base cand occ`: try `base` first; on collision probe
`cand 1, cand 2, …` — the shape of `safeRename`/`safeMove` and of the
inline collision loops in `dedupeImages.py` / `filterBlackImages.py`. -/
def resolveName (base : α) (cand : Nat → α) (occ : List α) : α :=
  if base ∈ occ then cand (firstFree cand occ 1 (occ.length + 1)) else base

theorem resolveName_not_mem (base : α) (cand : Nat → α) (occ : List α)
    (hinj : Function.Injective cand) : resolveName base cand occ ∉ occ := by
  unfold resolveName
  by_cases hb : base ∈ occ
  · simpa [hb] using firstFree_not_mem cand occ hinj 1
  · simp only [hb, if_false]
    exact not_false

/-! ### `sortImagesByResolution.py`: width bins -/

/-- The `while low <= maxW` loop body of `buildWidthBins`, with fuel
(each iteration appends `(low, low + (binSize - 1))` and advances `low`
past the bin). -/
def binsAux (binSize maxW : Nat) : Nat → Nat → List (Nat × Nat)
  | 0, _ => []
  | fuel + 1, low =>
    if low ≤ maxW then
      (low, low + (binSize - 1)) :: binsAux binSize maxW fuel (low + (binSize - 1) + 1)
    else []

/-- `buildWidthBins(widths, binSize)`: inclusive bins `[low, high]`
covering the observed widths, starting at 0.  `maxW + 1` units of fuel
are enough for any positive `binSize` (Python diverges on
`binSize ≤ 0`). -/
def buildWidthBins (widths : List Nat) (binSize : Nat) : List (Nat × Nat) :=
  match widths with
  | [] => []
  | _ :: _ =>
    let maxW := widths.foldr max 0
    binsAux binSize maxW (maxW + 1) 0

/-- `findBin(width, bins)`: linear scan for the bin containing `width`,
falling back to `bins[-1]` (`none` when `bins` is empty, where Python
raises). -/
def findBin (width : Nat) (bins : List (Nat × Nat)) : Option (Nat × Nat) :=
  match bins.find? (fun lh => lh.1 ≤ width && width ≤ lh.2) with
  | some b => some b
  | none => bins.getLast?

theorem binsAux_lower_bound (binSize maxW : Nat) :
    ∀ fuel low p, p ∈ binsAux binSize maxW fuel low → low ≤ p.1 := by
  intro fuel
  induction fuel with
  | zero => intro low p hp; simp [binsAux] at hp
  | succ fuel ih =>
    intro low p hp
    by_cases hl : low ≤ maxW
    · simp only [binsAux, hl, if_true, List.mem_cons] at hp
      rcases hp with rfl | hp
      · exact le_refl _
      · have := ih _ p hp; omega
    · simp [binsAux, hl] at hp

theorem binsAux_shape (binSize maxW : Nat) :
    ∀ fuel low p, p ∈ binsAux binSize maxW fuel low → p.2 = p.1 + (binSize - 1) := by
  intro fuel
  induction fuel with
  | zero => intro low p hp; simp [binsAux] at hp
  | succ fuel ih =>
    intro low p hp
    by_cases hl : low ≤ maxW
    · simp only [binsAux, hl, if_true, List.mem_cons] at hp
      rcases hp with rfl | hp
      · rfl
      · exact ih _ p hp
    · simp [binsAux, hl] at hp

theorem binsAux_chain (binSize maxW : Nat) :
    ∀ fuel low, List.Chain' (fun a b => b.1 = a.2 + 1) (binsAux binSize maxW fuel low) := by
  intro fuel
  induction fuel with
  | zero => intro low; simp [binsAux]
  | succ fuel ih =>
    intro low
    by_cases hl : low ≤ maxW
    · simp only [binsAux, hl, if_true]
      apply List.chain'_cons'.mpr
      refine ⟨?_, ih _⟩
      intro q hq
      cases fuel with
      | zero => simp [binsAux] at hq
      | succ fuel =>
        by_cases hl2 : low + (binSize - 1) + 1 ≤ maxW
        · simp only [binsAux, hl2, if_true, List.head?_cons] at hq
          rw [Option.mem_def, Option.some.injEq] at hq
          rw [← hq]
        · simp [binsAux, hl2] at hq
    · simp [binsAux, hl]

theorem binsAux_countP (binSize maxW : Nat) (hpos : 0 < binSize) :
    ∀ fuel low w, maxW + 1 ≤ low + fuel * binSize → low ≤ w → w ≤ maxW →
      (binsAux binSize maxW fuel low).countP (fun p => p.1 ≤ w && w ≤ p.2) = 1 := by
  intro fuel
  induction fuel with
  | zero =>
    intro low w hfuel hlw hwm
    omega
  | succ fuel ih =>
    intro low w hfuel hlw hwm
    have hl : low ≤ maxW := le_trans hlw hwm
    simp only [binsAux, hl, if_true]
    by_cases hw : w ≤ low + (binSize - 1)
    · rw [List.countP_cons_of_pos _ _ (by simp [hlw, hw])]
      have hzero : (binsAux binSize maxW fuel (low + (binSize - 1) + 1)).countP
          (fun p => p.1 ≤ w && w ≤ p.2) = 0 := by
        rw [List.countP_eq_zero]
        intro p hp
        have := binsAux_lower_bound binSize maxW fuel _ p hp
        simp only [Bool.and_eq_true, decide_eq_true_eq, not_and]
        intro h1
        omega
      omega
    · rw [List.countP_cons_of_neg _ _ (by simp [hw])]
      have hstep : low + (binSize - 1) + 1 = low + binSize := by omega
      rw [hstep]
      apply ih
      · have : (fuel + 1) * binSize = fuel * binSize + binSize := by
          rw [Nat.succ_mul]
        omega
      · omega
      · exact hwm

theorem buildWidthBins_countP (widths : List Nat) (binSize : Nat)
    (hne : widths ≠ []) (hpos : 0 < binSize) (x : Nat) (hx : x ≤ widths.foldr max 0) :
    (buildWidthBins widths binSize).countP (fun p => p.1 ≤ x && x ≤ p.2) = 1 := by
  match widths with
  | [] => exact absurd rfl hne
  | w :: ws =>
    apply binsAux_countP _ _ hpos
    · have h1 : ((w :: ws).foldr max 0 + 1) * 1 ≤ ((w :: ws).foldr max 0 + 1) * binSize :=
        Nat.mul_le_mul_left _ hpos
      omega
    · omega
    · exact hx

theorem mem_le_foldr_max (l : List Nat) (w : Nat) (hw : w ∈ l) : w ≤ l.foldr max 0 := by
  induction l with
  | nil => simp at hw
  | cons a l ih =>
    rcases List.mem_cons.mp hw with rfl | hw
    · exact le_max_left _ _
    · exact le_trans (ih hw) (le_max_right _ _)

/-- **C4.** For a non-empty width list and positive `binSize`,
`buildWidthBins` returns contiguous, non-overlapping inclusive bins
`[0, binSize-1], [binSize, 2*binSize-1], …` covering `[0, maxObservedWidth]`:
the first bin starts at 0, every bin spans exactly `binSize` integers,
each bin begins right after its predecessor ends, every `x ≤ maxWidth`
lies in exactly one bin, and every observed width lies in exactly one
bin, which `findBin` returns. -/
theorem widthBins_cover_and_findBin (widths : List Nat) (binSize : Nat)
    (hne : widths ≠ []) (hpos : 0 < binSize) :
    (buildWidthBins widths binSize).head? = some (0, binSize - 1) ∧
    (∀ p ∈ buildWidthBins widths binSize, p.2 = p.1 + (binSize - 1)) ∧
    List.Chain' (fun a b => b.1 = a.2 + 1) (buildWidthBins widths binSize) ∧
    (∀ x, x ≤ widths.foldr max 0 →
      (buildWidthBins widths binSize).countP (fun p => p.1 ≤ x && x ≤ p.2) = 1) ∧
    (∀ w ∈ widths, ∃ b, b ∈ buildWidthBins widths binSize ∧
      findBin w (buildWidthBins widths binSize) = some b ∧
      b.1 ≤ w ∧ w ≤ b.2 ∧
      (buildWidthBins widths binSize).countP (fun p => p.1 ≤ w && w ≤ p.2) = 1) := by
  refine ⟨?_, ?_, ?_, ?_, ?_⟩
  · match widths with
    | [] => exact absurd rfl hne
    | w :: ws =>
      simp only [buildWidthBins]
      rw [show ((w :: ws).foldr max 0 + 1) = ((w :: ws).foldr max 0) + 1 from rfl]
      simp [binsAux]
  · intro p hp
    match widths, hne with
    | w :: ws, _ => exact binsAux_shape _ _ _ _ p hp
  · match widths, hne with
    | w :: ws, _ => exact binsAux_chain _ _ _ _
  · intro x hx
    exact buildWidthBins_countP widths binSize hne hpos x hx
  · intro w hw
    have hmax := mem_le_foldr_max widths w hw
    have hcount := buildWidthBins_countP widths binSize hne hpos w hmax
    have hpos' : 0 < (buildWidthBins widths binSize).countP (fun p => p.1 ≤ w && w ≤ p.2) := by
      omega
    have hex := List.countP_pos_iff.mp hpos'
    obtain ⟨b0, hb0, hb0p⟩ := hex
    have hsome : ((buildWidthBins widths binSize).find?
        (fun lh => lh.1 ≤ w && w ≤ lh.2)).isSome := by
      rw [List.find?_isSome]
      exact ⟨b0, hb0, hb0p⟩
    obtain ⟨b, hb⟩ := Option.isSome_iff_exists.mp hsome
    refine ⟨b, List.mem_of_find?_eq_some hb, ?_, ?_, ?_, hcount⟩
    · simp [findBin, hb]
    · have := List.find?_some hb
      simp only [Bool.and_eq_true, decide_eq_true_eq] at this
      exact this.1
    · have := List.find?_some hb
      simp only [Bool.and_eq_true, decide_eq_true_eq] at this
      exact this.2

/-- Witness for `widthBins_cover_and_findBin` at widths `[450, 120]`
and `binSize = 200`. -/
theorem widthBins_cover_and_findBin_witness :
    ([450, 120] ≠ ([] : List Nat)) ∧ 0 < 200 ∧
    ((buildWidthBins [450, 120] 200).head? = some (0, 200 - 1) ∧
    (∀ p ∈ buildWidthBins [450, 120] 200, p.2 = p.1 + (200 - 1)) ∧
    List.Chain' (fun a b => b.1 = a.2 + 1) (buildWidthBins [450, 120] 200) ∧
    (∀ x, x ≤ ([450, 120] : List Nat).foldr max 0 →
      (buildWidthBins [450, 120] 200).countP (fun p => p.1 ≤ x && x ≤ p.2) = 1) ∧
    (∀ w ∈ ([450, 120] : List Nat), ∃ b, b ∈ buildWidthBins [450, 120] 200 ∧
      findBin w (buildWidthBins [450, 120] 200) = some b ∧
      b.1 ≤ w ∧ w ≤ b.2 ∧
      (buildWidthBins [450, 120] 200).countP (fun p => p.1 ≤ w && w ≤ p.2) = 1)) :=
  ⟨by decide, by decide,
    widthBins_cover_and_findBin [450, 120] 200 (by decide) (by decide)⟩

/-! ### `SafeMover`: `safeRename` / `safeMove` -/

/-- A destination directory: whether it exists and the file names in
it. -/
structure DirFiles where
  present : Bool
  names : List String
deriving DecidableEq

/-- `safeRename(src, dst)` from `sortImagesByResolution.py`: ensure the
parent directory exists (`dst.parent.mkdir(parents=True, exist_ok=True)`),
probe `dst`, then `{stem}_1{suffix}`, `{stem}_2{suffix}`, … until a free
name is found, rename, and return the path used. -/
def safeRename (stem suffix : String) (d : DirFiles) : String × DirFiles :=
  let target := resolveName (stem ++ suffix) (fun i => mkIndexedName stem i suffix) d.names
  (target, ⟨true, target :: d.names⟩)

/-- `safeMove(src, dstDir)` from `dedupeVideos.py`: ensure `dstDir`
exists, probe `dstDir/src.name`, then `{stem}_1{suffix}`, … until free,
rename, return the path used. -/
def safeMove (stem suffix : String) (d : DirFiles) : String × DirFiles :=
  let target := resolveName (stem ++ suffix) (fun i => mkIndexedName stem i suffix) d.names
  (target, ⟨true, target :: d.names⟩)

/-- **C5.** `safeRename`/`safeMove` ensure the destination's parent
directory exists, never reuse an existing name (so nothing is
overwritten and all prior files survive), and moving two files that
resolve to the same destination name yields two distinct names, both
present afterwards. -/
theorem safeMover_no_overwrite (stem suffix : String) (d : DirFiles) :
    (safeRename stem suffix d).2.present = true ∧
    (safeRename stem suffix d).1 ∉ d.names ∧
    (safeRename stem suffix d).2.names = (safeRename stem suffix d).1 :: d.names ∧
    (safeRename stem suffix (safeRename stem suffix d).2).1 ∉
      (safeRename stem suffix d).2.names ∧
    (safeRename stem suffix (safeRename stem suffix d).2).1 ≠ (safeRename stem suffix d).1 ∧
    (safeRename stem suffix (safeRename stem suffix d).2).2.names =
      (safeRename stem suffix (safeRename stem suffix d).2).1 ::
        (safeRename stem suffix d).1 :: d.names ∧
    (safeMove stem suffix d).1 ∉ d.names ∧
    (safeMove stem suffix (safeMove stem suffix d).2).1 ≠ (safeMove stem suffix d).1 := by
  have hinj := mkIndexedName_injective stem suffix
  have h1 : (safeRename stem suffix d).1 ∉ d.names :=
    resolveName_not_mem _ _ _ hinj
  have h2 : (safeRename stem suffix (safeRename stem suffix d).2).1 ∉
      (safeRename stem suffix d).2.names :=
    resolveName_not_mem _ _ _ hinj
  have hm1 : (safeMove stem suffix d).1 ∉ d.names :=
    resolveName_not_mem _ _ _ hinj
  have hm2 : (safeMove stem suffix (safeMove stem suffix d).2).1 ∉
      (safeMove stem suffix d).2.names :=
    resolveName_not_mem _ _ _ hinj
  refine ⟨rfl, h1, rfl, h2, ?_, rfl, hm1, ?_⟩
  · intro heq
    apply h2
    rw [heq]
    exact List.mem_cons_self _ _
  · intro heq
    apply hm2
    rw [heq]
    exact List.mem_cons_self _ _

/-! ### `cleanRecoveredFiles.py`: data model -/

/-- Extension set for images (`cleanRecoveredFiles.py`). -/
def IMAGE_EXTS : List String :=
  [".jpg", ".jpeg", ".png", ".tif", ".tiff", ".bmp", ".gif", ".webp"]

/-- Extension set for videos (`cleanRecoveredFiles.py`). -/
def VIDEO_EXTS : List String :=
  [".mp4", ".mov", ".avi", ".mkv", ".mpg", ".mpeg", ".mts", ".m2ts", ".wmv"]

/-- Per-channel statistics of a successfully decoded RGB image
(`ImageStat.Stat`): channel means and standard deviations. -/
structure ImgStats where
  mean : List ℚ
  stddev : List ℚ
deriving DecidableEq

/-- A candidate file from a `recup_dir.*` source tree.  `imgStats` is
the image-decode outcome (`none` = any decode exception), `content` the
file bytes (`none` = read error while hashing; digest is modelled by
the content itself, SHA-256 being treated as injective). -/
structure Candidate where
  stem : String
  suffix : String
  size : Nat
  imgStats : Option ImgStats
  content : Option Nat
deriving DecidableEq

/-- Python's `str.lower()` (ASCII, which covers the extension sets). -/
def strToLower (s : String) : String := ⟨s.data.map Char.toLower⟩

def isImage (c : Candidate) : Bool := IMAGE_EXTS.contains (strToLower c.suffix)

def isVideo (c : Candidate) : Bool := VIDEO_EXTS.contains (strToLower c.suffix)

/-- `analyseImage(path, blackMeanThresh, blackStdThresh) -> (isValid, isBlack)`:
a decode exception in either `verify()` or the stat pass yields
`(False, False)`; otherwise the image is near-black when every channel
mean is `≤ blackMeanThresh` and every channel stddev is
`≤ blackStdThresh`.  (Same function appears in `filterBlackImages.py`.) -/
def analyseImage (decoded : Option ImgStats) (blackMeanThresh blackStdThresh : ℚ) :
    Bool × Bool :=
  match decoded with
  | none => (false, false)
  | some s =>
    (true, s.mean.all (fun m => decide (m ≤ blackMeanThresh)) &&
      s.stddev.all (fun d => decide (d ≤ blackStdThresh)))

inductive Kind where
  | image
  | video
  | other
  | skipTiny
deriving DecidableEq

/-- `classifyFile(path, minVideoSize)`. -/
def classifyFile (c : Candidate) (minVideoSize : Nat) : Kind :=
  if c.size = 0 then .skipTiny
  else if isImage c then .image
  else if isVideo c then (if minVideoSize ≤ c.size then .video else .skipTiny)
  else .other

/-- A file already written to a destination directory. -/
structure DFile where
  name : String
  content : Nat
deriving DecidableEq

/-- A destination directory (`Images/`, `Videos/` or `Other/`). -/
structure DirSt where
  present : Bool
  files : List DFile
deriving DecidableEq

/-- `mkdir(parents=True, exist_ok=True)`. -/
def ensureDir (d : DirSt) : DirSt := { d with present := true }

/-- The counters kept by `processFiles` (`stats = dict(...)`).  Note:
there is no error counter. -/
structure Stats where
  totalFiles : Nat
  imagesSeen : Nat
  videosSeen : Nat
  othersSeen : Nat
  tinySkipped : Nat
  imageInvalid : Nat
  imageBlack : Nat
  duplicatesSkipped : Nat
  imagesCopied : Nat
  videosCopied : Nat
  othersCopied : Nat
deriving DecidableEq

def Stats.zero : Stats := ⟨0, 0, 0, 0, 0, 0, 0, 0, 0, 0, 0⟩

/-- `hashFile`: streamed SHA-256, abstracted to the file content
itself; `none` models a read error (`except Exception` at the call
sites). -/
def hashFile (c : Candidate) : Option Nat := c.content

/-- Whether `name` matches the glob pattern
`f"{stem}_*{suffixL}"` used by the cheap resume check. -/
def globMatch (stem suffixL : String) (name : String) : Bool :=
  (stem ++ "_").data.isPrefixOf name.data &&
  suffixL.data.isSuffixOf name.data &&
  decide (stem.length + 1 + suffixL.length ≤ name.length)

/-- `copyFile(src, targetDir, index)`: name the copy
`f"{src.stem}_{index}{src.suffix.lower()}"`, bumping the index while
the name is taken, then copy the bytes `v`. -/
def copyFile (c : Candidate) (v : Nat) (index : Nat) (d : DirSt) : DirSt :=
  let k := firstFree (fun i => mkIndexedName c.stem i (strToLower c.suffix))
    (d.files.map DFile.name) index (d.files.map DFile.name).length.succ
  { d with files := ⟨mkIndexedName c.stem k (strToLower c.suffix), v⟩ :: d.files }

/-- `seedExistingHashes(imgsDir, vidsDir, othDir)`: the hash of every
file already present under the destination directories.  Defined in
`cleanRecoveredFiles.py` — but never called. -/
def seedExistingHashes (imgs vids oth : DirSt) : List Nat :=
  ((if imgs.present then imgs.files else []) ++
    (if vids.present then vids.files else []) ++
    (if oth.present then oth.files else [])).map DFile.content

/-- The configuration of one `processFiles` run. -/
structure Config where
  minVideoSize : Nat
  dryRun : Bool
  blackMean : ℚ
  blackStd : ℚ

/-- The mutable state of one `processFiles` run. -/
structure RunState where
  imgs : DirSt
  vids : DirSt
  oth : DirSt
  hashesSeen : List Nat
  stats : Stats
  index : Nat
deriving DecidableEq

def destDirOf (st : RunState) : Kind → DirSt
  | .image => st.imgs
  | .video => st.vids
  | _ => st.oth

def setDestDir (st : RunState) : Kind → DirSt → RunState
  | .image, d => { st with imgs := d }
  | .video, d => { st with vids := d }
  | _, d => { st with oth := d }

def bumpSeen (st : RunState) : Kind → RunState
  | .image => { st with stats := { st.stats with imagesSeen := st.stats.imagesSeen + 1 } }
  | .video => { st with stats := { st.stats with videosSeen := st.stats.videosSeen + 1 } }
  | _ => { st with stats := { st.stats with othersSeen := st.stats.othersSeen + 1 } }

def bumpCopied (st : RunState) : Kind → RunState
  | .image => { st with stats := { st.stats with imagesCopied := st.stats.imagesCopied + 1 } }
  | .video => { st with stats := { st.stats with videosCopied := st.stats.videosCopied + 1 } }
  | _ => { st with stats := { st.stats with othersCopied := st.stats.othersCopied + 1 } }

def bumpDup (st : RunState) : RunState :=
  { st with stats :=
      { st.stats with duplicatesSkipped := st.stats.duplicatesSkipped + 1 } }

def bumpTotal (st : RunState) : RunState :=
  { st with stats := { st.stats with totalFiles := st.stats.totalFiles + 1 } }

/-- The dedupe-and-copy tail of the per-file loop of `processFiles`:
the cheap stem-glob resume check (skipped under `--dry-run`), the
SHA-256 dedupe against `hashesSeen`, and the copy (or dry-run count). -/
def dedupeAndCopy (cfg : Config) (c : Candidate) (kind : Kind) (st : RunState) : RunState :=
  if !cfg.dryRun &&
      (destDirOf st kind).files.any (fun f => globMatch c.stem (strToLower c.suffix) f.name) then
    bumpDup st
  else
    match hashFile c with
    | none => bumpDup st
    | some v =>
      if v ∈ st.hashesSeen then bumpDup st
      else
        let st1 : RunState := { st with hashesSeen := v :: st.hashesSeen }
        if cfg.dryRun then
          { bumpCopied st1 kind with index := st1.index + 1 }
        else
          let st2 := setDestDir st1 kind (copyFile c v st1.index (destDirOf st1 kind))
          { bumpCopied st2 kind with index := st2.index + 1 }

/-- The body of the per-file loop of `processFiles`. -/
def processOne (cfg : Config) (st : RunState) (c : Candidate) : RunState :=
  let st := bumpTotal st
  match classifyFile c cfg.minVideoSize with
  | .skipTiny =>
    { st with stats := { st.stats with tinySkipped := st.stats.tinySkipped + 1 } }
  | .image =>
    let st := bumpSeen st .image
    let r := analyseImage c.imgStats cfg.blackMean cfg.blackStd
    if !r.1 then
      { st with stats := { st.stats with imageInvalid := st.stats.imageInvalid + 1 } }
    else if r.2 then
      { st with stats := { st.stats with imageBlack := st.stats.imageBlack + 1 } }
    else dedupeAndCopy cfg c .image st
  | .video => dedupeAndCopy cfg c .video (bumpSeen st .video)
  | .other => dedupeAndCopy cfg c .other (bumpSeen st .other)

def processFilesFrom (cfg : Config) (st : RunState) (cs : List Candidate) : RunState :=
  cs.foldl (processOne cfg) st

/-- The initial state of `processFiles`: `ensureTargetSubdirs`, an
*empty* `hashesSeen` set (`seedExistingHashes` is never called),
zeroed counters and `index = 1`. -/
def initState (imgs vids oth : DirSt) : RunState :=
  { imgs := ensureDir imgs, vids := ensureDir vids, oth := ensureDir oth,
    hashesSeen := [], stats := Stats.zero, index := 1 }

/-- `processFiles(sourceRoot, targetRoot, …)` over the candidate list
enumerated from the `recup_dir.*` folders. -/
def processFiles (cfg : Config) (imgs vids oth : DirSt) (cs : List Candidate) : RunState :=
  processFilesFrom cfg (initState imgs vids oth) cs

/-- Whether a candidate survives the size/validity filters and reaches
the dedupe stage of the loop. -/
def passesFilters (cfg : Config) (c : Candidate) : Bool :=
  match classifyFile c cfg.minVideoSize with
  | .skipTiny => false
  | .image =>
    (analyseImage c.imgStats cfg.blackMean cfg.blackStd).1 &&
      !(analyseImage c.imgStats cfg.blackMean cfg.blackStd).2
  | .video => true
  | .other => true

def copiedTotal (s : Stats) : Nat := s.imagesCopied + s.videosCopied + s.othersCopied

def destCount (st : RunState) : Nat :=
  st.imgs.files.length + st.vids.files.length + st.oth.files.length

/-- The default configuration of a real (non-dry) run. -/
def cfgReal : Config := ⟨10240, false, 2, 3⟩

/-- The default configuration with `--dry-run`. -/
def cfgDry : Config := ⟨10240, true, 2, 3⟩

/-- An existing, empty destination directory. -/
def emptyDir : DirSt := ⟨true, []⟩

/-- **C1, counterexample.** The claim fails on the code: `processFiles` starts every
run with an *empty* `hashesSeen` set — `seedExistingHashes` is defined
(and would return the digests of the destination files) but is never
called.  Concretely, with `Other/` already holding a file of content
42, a candidate `f.dat` with the same content 42 (different stem) is
hashed against the empty set and copied, not counted as a duplicate,
leaving two byte-identical files at the destination. -/
theorem exactDedup_hashesSeen_not_seeded :
    (initState emptyDir emptyDir ⟨true, [⟨"x_1.dat", 42⟩]⟩).hashesSeen = [] ∧
    42 ∈ seedExistingHashes emptyDir emptyDir ⟨true, [⟨"x_1.dat", 42⟩]⟩ ∧
    (processFiles cfgReal emptyDir emptyDir ⟨true, [⟨"x_1.dat", 42⟩]⟩
      [⟨"f", ".dat", 5, none, some 42⟩]).stats.othersCopied = 1 ∧
    (processFiles cfgReal emptyDir emptyDir ⟨true, [⟨"x_1.dat", 42⟩]⟩
      [⟨"f", ".dat", 5, none, some 42⟩]).stats.duplicatesSkipped = 0 ∧
    ((processFiles cfgReal emptyDir emptyDir ⟨true, [⟨"x_1.dat", 42⟩]⟩
      [⟨"f", ".dat", 5, none, some 42⟩]).oth.files.map DFile.content) = [42, 42] := by
  decide

/-- **C2, counterexample.** The claim fails on the code: with two byte-identical
candidates `a.dat` and `b.dat` (content 7), the first run copies `a`
(as `a_1.dat`) and skips `b` as a duplicate; the second run over the
same input glob-skips `a` *before hashing it*, so `b` is hashed against
an again-empty seen set and newly copied — the second run copies one
new file instead of zero. -/
theorem exactDedup_second_run_recopies :
    (processFiles cfgReal emptyDir emptyDir emptyDir
      [⟨"a", ".dat", 5, none, some 7⟩, ⟨"b", ".dat", 5, none, some 7⟩]).stats.othersCopied
      = 1 ∧
    (processFiles cfgReal emptyDir emptyDir emptyDir
      [⟨"a", ".dat", 5, none, some 7⟩, ⟨"b", ".dat", 5, none, some 7⟩]).stats.duplicatesSkipped
      = 1 ∧
    (processFiles cfgReal emptyDir emptyDir
      (processFiles cfgReal emptyDir emptyDir emptyDir
        [⟨"a", ".dat", 5, none, some 7⟩, ⟨"b", ".dat", 5, none, some 7⟩]).oth
      [⟨"a", ".dat", 5, none, some 7⟩, ⟨"b", ".dat", 5, none, some 7⟩]).stats.othersCopied
      = 1 ∧
    (processFiles cfgReal emptyDir emptyDir
      (processFiles cfgReal emptyDir emptyDir emptyDir
        [⟨"a", ".dat", 5, none, some 7⟩, ⟨"b", ".dat", 5, none, some 7⟩]).oth
      [⟨"a", ".dat", 5, none, some 7⟩, ⟨"b", ".dat", 5, none, some 7⟩]).oth.files.length
      = ((processFiles cfgReal emptyDir emptyDir emptyDir
        [⟨"a", ".dat", 5, none, some 7⟩, ⟨"b", ".dat", 5, none, some 7⟩]).oth.files.length
        + 1) := by
  decide

/-- **C8, counterexample.** A single unreadable candidate (`content =
none`, i.e. the hash raises) is counted in `duplicatesSkipped` — the
run has no separate error counter, so a hash failure *does* increment
the duplicate counter, contradicting the claim. -/
theorem hashError_increments_duplicatesSkipped :
    (processFiles cfgReal emptyDir emptyDir emptyDir
      [⟨"u", ".dat", 5, none, none⟩]).stats.duplicatesSkipped = 1 ∧
    copiedTotal (processFiles cfgReal emptyDir emptyDir emptyDir
      [⟨"u", ".dat", 5, none, none⟩]).stats = 0 ∧
    (processFiles cfgReal emptyDir emptyDir emptyDir
      [⟨"u", ".dat", 5, none, none⟩]).oth.files = [] := by
  decide

theorem dedupeAndCopy_seen (cfg : Config) (c : Candidate) (kind : Kind) (st : RunState)
    (v : Nat) (hv : c.content = some v) (hseen : v ∈ st.hashesSeen) :
    dedupeAndCopy cfg c kind st = bumpDup st := by
  unfold dedupeAndCopy
  by_cases hg : (!cfg.dryRun &&
      (destDirOf st kind).files.any
        (fun f => globMatch c.stem (strToLower c.suffix) f.name)) = true
  · simp [hg]
  · simp only [Bool.not_eq_true] at hg
    simp [hg, hashFile, hv, hseen]

theorem dedupeAndCopy_hashError (cfg : Config) (c : Candidate) (kind : Kind) (st : RunState)
    (hc : c.content = none)
    (hng : cfg.dryRun = false →
      (destDirOf st kind).files.any
        (fun f => globMatch c.stem (strToLower c.suffix) f.name) = false) :
    dedupeAndCopy cfg c kind st = bumpDup st := by
  unfold dedupeAndCopy
  cases hd : cfg.dryRun with
  | true => simp [hd, hashFile, hc]
  | false => simp [hd, hng hd, hashFile, hc]

theorem dedupeAndCopy_fresh_real (cfg : Config) (c : Candidate) (kind : Kind) (st : RunState)
    (v : Nat) (hdry : cfg.dryRun = false) (hv : c.content = some v)
    (hnew : v ∉ st.hashesSeen)
    (hng : (destDirOf st kind).files.any
      (fun f => globMatch c.stem (strToLower c.suffix) f.name) = false) :
    (dedupeAndCopy cfg c kind st).hashesSeen = v :: st.hashesSeen ∧
    copiedTotal (dedupeAndCopy cfg c kind st).stats = copiedTotal st.stats + 1 ∧
    (dedupeAndCopy cfg c kind st).stats.duplicatesSkipped = st.stats.duplicatesSkipped ∧
    destCount (dedupeAndCopy cfg c kind st) = destCount st + 1 := by
  unfold dedupeAndCopy
  simp only [hdry, hng, Bool.not_false, Bool.true_and, if_false, hashFile, hv, hnew,
    if_neg hnew]
  cases kind <;>
    simp [bumpCopied, setDestDir, destDirOf, copyFile, copiedTotal, destCount] <;>
    omega

theorem processOne_seen (cfg : Config) (st : RunState) (c : Candidate) (v : Nat)
    (hp : passesFilters cfg c = true) (hv : c.content = some v)
    (hseen : v ∈ st.hashesSeen) :
    (processOne cfg st c).hashesSeen = st.hashesSeen ∧
    copiedTotal (processOne cfg st c).stats = copiedTotal st.stats ∧
    (processOne cfg st c).stats.duplicatesSkipped = st.stats.duplicatesSkipped + 1 ∧
    destCount (processOne cfg st c) = destCount st := by
  cases hk : classifyFile c cfg.minVideoSize with
  | skipTiny => simp [passesFilters, hk] at hp
  | image =>
    simp only [passesFilters, hk, Bool.and_eq_true, Bool.not_eq_true'] at hp
    simp only [processOne, hk, hp.1, hp.2, Bool.not_true, Bool.false_eq_true, if_false]
    rw [dedupeAndCopy_seen cfg c Kind.image (bumpSeen (bumpTotal st) Kind.image) v hv
      (by simpa [bumpSeen, bumpTotal] using hseen)]
    simp [bumpSeen, bumpTotal, bumpDup, copiedTotal, destCount]
  | video =>
    simp only [processOne, hk]
    rw [dedupeAndCopy_seen cfg c Kind.video (bumpSeen (bumpTotal st) Kind.video) v hv
      (by simpa [bumpSeen, bumpTotal] using hseen)]
    simp [bumpSeen, bumpTotal, bumpDup, copiedTotal, destCount]
  | other =>
    simp only [processOne, hk]
    rw [dedupeAndCopy_seen cfg c Kind.other (bumpSeen (bumpTotal st) Kind.other) v hv
      (by simpa [bumpSeen, bumpTotal] using hseen)]
    simp [bumpSeen, bumpTotal, bumpDup, copiedTotal, destCount]

theorem processOne_fresh_real (cfg : Config) (st : RunState) (c : Candidate) (v : Nat)
    (hdry : cfg.dryRun = false) (hp : passesFilters cfg c = true)
    (hv : c.content = some v) (hnew : v ∉ st.hashesSeen)
    (hng : ∀ kind, (destDirOf st kind).files.any
      (fun f => globMatch c.stem (strToLower c.suffix) f.name) = false) :
    (processOne cfg st c).hashesSeen = v :: st.hashesSeen ∧
    copiedTotal (processOne cfg st c).stats = copiedTotal st.stats + 1 ∧
    (processOne cfg st c).stats.duplicatesSkipped = st.stats.duplicatesSkipped ∧
    destCount (processOne cfg st c) = destCount st + 1 := by
  cases hk : classifyFile c cfg.minVideoSize with
  | skipTiny => simp [passesFilters, hk] at hp
  | image =>
    simp only [passesFilters, hk, Bool.and_eq_true, Bool.not_eq_true'] at hp
    simp only [processOne, hk, hp.1, hp.2, Bool.not_true, Bool.false_eq_true, if_false]
    have h := dedupeAndCopy_fresh_real cfg c Kind.image
      (bumpSeen (bumpTotal st) Kind.image) v hdry hv
      (by simpa [bumpSeen, bumpTotal] using hnew)
      (by simpa [bumpSeen, bumpTotal, destDirOf] using hng .image)
    refine ⟨?_, ?_, ?_, ?_⟩
    · rw [h.1]; simp [bumpSeen, bumpTotal]
    · rw [h.2.1]; simp [bumpSeen, bumpTotal, copiedTotal]
    · rw [h.2.2.1]; simp [bumpSeen, bumpTotal]
    · rw [h.2.2.2]; simp [bumpSeen, bumpTotal, destCount]
  | video =>
    simp only [processOne, hk]
    have h := dedupeAndCopy_fresh_real cfg c Kind.video
      (bumpSeen (bumpTotal st) Kind.video) v hdry hv
      (by simpa [bumpSeen, bumpTotal] using hnew)
      (by simpa [bumpSeen, bumpTotal, destDirOf] using hng .video)
    refine ⟨?_, ?_, ?_, ?_⟩
    · rw [h.1]; simp [bumpSeen, bumpTotal]
    · rw [h.2.1]; simp [bumpSeen, bumpTotal, copiedTotal]
    · rw [h.2.2.1]; simp [bumpSeen, bumpTotal]
    · rw [h.2.2.2]; simp [bumpSeen, bumpTotal, destCount]
  | other =>
    simp only [processOne, hk]
    have h := dedupeAndCopy_fresh_real cfg c Kind.other
      (bumpSeen (bumpTotal st) Kind.other) v hdry hv
      (by simpa [bumpSeen, bumpTotal] using hnew)
      (by simpa [bumpSeen, bumpTotal, destDirOf] using hng .other)
    refine ⟨?_, ?_, ?_, ?_⟩
    · rw [h.1]; simp [bumpSeen, bumpTotal]
    · rw [h.2.1]; simp [bumpSeen, bumpTotal, copiedTotal]
    · rw [h.2.2.1]; simp [bumpSeen, bumpTotal]
    · rw [h.2.2.2]; simp [bumpSeen, bumpTotal, destCount]

theorem isPrefixOf_append_self : ∀ (l t : List Char), l.isPrefixOf (l ++ t) = true := by
  intro l
  induction l with
  | nil => intro t; simp [List.isPrefixOf]
  | cons a l ih =>
    intro t
    simp only [List.cons_append, List.isPrefixOf_cons₂_self, ih]

theorem isSuffixOf_append_self (l t : List Char) : t.isSuffixOf (l ++ t) = true := by
  unfold List.isSuffixOf
  rw [List.reverse_append]
  exact isPrefixOf_append_self t.reverse l.reverse

/-- A name `copyFile` writes for a candidate always matches that
candidate's own resume glob pattern. -/
theorem globMatch_own_copy (stem suffixL : String) (k : Nat) :
    globMatch stem suffixL (mkIndexedName stem k suffixL) = true := by
  unfold globMatch mkIndexedName
  simp only [Bool.and_eq_true, decide_eq_true_eq]
  refine ⟨⟨?_, ?_⟩, ?_⟩
  · have h : (stem ++ "_" ++ natToDec k ++ suffixL).data
        = (stem ++ "_").data ++ ((natToDec k).data ++ suffixL.data) := by
      simp [String.data_append, List.append_assoc]
    rw [h]
    exact isPrefixOf_append_self _ _
  · have h : (stem ++ "_" ++ natToDec k ++ suffixL).data
        = ((stem ++ "_").data ++ (natToDec k).data) ++ suffixL.data := by
      simp [String.data_append, List.append_assoc]
    rw [h]
    exact isSuffixOf_append_self _ _
  · simp only [String.length_append]
    have : ("_" : String).length = 1 := rfl
    omega

theorem dedupeAndCopy_globHit (cfg : Config) (c : Candidate) (kind : Kind) (st : RunState)
    (hdry : cfg.dryRun = false)
    (hglob : (destDirOf st kind).files.any
      (fun f => globMatch c.stem (strToLower c.suffix) f.name) = true) :
    dedupeAndCopy cfg c kind st = bumpDup st := by
  unfold dedupeAndCopy
  simp [hdry, hglob]

theorem processOne_globHit (cfg : Config) (st : RunState) (c : Candidate)
    (hdry : cfg.dryRun = false) (hp : passesFilters cfg c = true)
    (hglob : (destDirOf st (classifyFile c cfg.minVideoSize)).files.any
      (fun f => globMatch c.stem (strToLower c.suffix) f.name) = true) :
    (processOne cfg st c).imgs = st.imgs ∧
    (processOne cfg st c).vids = st.vids ∧
    (processOne cfg st c).oth = st.oth ∧
    (processOne cfg st c).hashesSeen = st.hashesSeen ∧
    (processOne cfg st c).index = st.index ∧
    (processOne cfg st c).stats.duplicatesSkipped = st.stats.duplicatesSkipped + 1 ∧
    copiedTotal (processOne cfg st c).stats = copiedTotal st.stats := by
  cases hk : classifyFile c cfg.minVideoSize with
  | skipTiny => simp [passesFilters, hk] at hp
  | image =>
    simp only [passesFilters, hk, Bool.and_eq_true, Bool.not_eq_true'] at hp
    simp only [processOne, hk, hp.1, hp.2, Bool.not_true, Bool.false_eq_true, if_false]
    rw [dedupeAndCopy_globHit cfg c Kind.image (bumpSeen (bumpTotal st) Kind.image) hdry
      (by rw [hk] at hglob; simpa [bumpSeen, bumpTotal, destDirOf] using hglob)]
    exact ⟨rfl, rfl, rfl, rfl, rfl, rfl, rfl⟩
  | video =>
    simp only [processOne, hk]
    rw [dedupeAndCopy_globHit cfg c Kind.video (bumpSeen (bumpTotal st) Kind.video) hdry
      (by rw [hk] at hglob; simpa [bumpSeen, bumpTotal, destDirOf] using hglob)]
    exact ⟨rfl, rfl, rfl, rfl, rfl, rfl, rfl⟩
  | other =>
    simp only [processOne, hk]
    rw [dedupeAndCopy_globHit cfg c Kind.other (bumpSeen (bumpTotal st) Kind.other) hdry
      (by rw [hk] at hglob; simpa [bumpSeen, bumpTotal, destDirOf] using hglob)]
    exact ⟨rfl, rfl, rfl, rfl, rfl, rfl, rfl⟩

/-- **C1 (amended).** `processFiles` starts every run with an *empty*
digest map — `seedExistingHashes` exists but is never invoked — and
resumes instead via the stem-glob check (non-dry runs only): a
candidate whose `{stem}_*{suffix}` pattern matches an existing file in
its destination subfolder is counted as a duplicate and not copied
(without being hashed).  Digest equality with a destination file does
not by itself suppress a copy. -/
theorem exactDedup_unseeded_glob_resume (imgs vids oth : DirSt)
    (cfg : Config) (st : RunState) (c : Candidate)
    (hdry : cfg.dryRun = false) (hp : passesFilters cfg c = true)
    (hglob : (destDirOf st (classifyFile c cfg.minVideoSize)).files.any
      (fun f => globMatch c.stem (strToLower c.suffix) f.name) = true) :
    (initState imgs vids oth).hashesSeen = [] ∧
    (processOne cfg st c).imgs = st.imgs ∧
    (processOne cfg st c).vids = st.vids ∧
    (processOne cfg st c).oth = st.oth ∧
    (processOne cfg st c).hashesSeen = st.hashesSeen ∧
    (processOne cfg st c).stats.duplicatesSkipped = st.stats.duplicatesSkipped + 1 ∧
    copiedTotal (processOne cfg st c).stats = copiedTotal st.stats := by
  have h := processOne_globHit cfg st c hdry hp hglob
  exact ⟨rfl, h.1, h.2.1, h.2.2.1, h.2.2.2.1, h.2.2.2.2.2.1, h.2.2.2.2.2.2⟩

/-- Witness for `exactDedup_unseeded_glob_resume`: destination `Other/`
already holds `f_1.dat`, so candidate `f.dat` is glob-skipped. -/
theorem exactDedup_unseeded_glob_resume_witness :
    cfgReal.dryRun = false ∧
    passesFilters cfgReal ⟨"f", ".dat", 5, none, some 99⟩ = true ∧
    (destDirOf (initState emptyDir emptyDir ⟨true, [⟨"f_1.dat", 42⟩]⟩)
      (classifyFile ⟨"f", ".dat", 5, none, some 99⟩ cfgReal.minVideoSize)).files.any
      (fun f => globMatch "f" (strToLower ".dat") f.name) = true ∧
    ((initState emptyDir emptyDir emptyDir).hashesSeen = [] ∧
      (processOne cfgReal (initState emptyDir emptyDir ⟨true, [⟨"f_1.dat", 42⟩]⟩)
        ⟨"f", ".dat", 5, none, some 99⟩).oth
        = (initState emptyDir emptyDir ⟨true, [⟨"f_1.dat", 42⟩]⟩).oth ∧
      (processOne cfgReal (initState emptyDir emptyDir ⟨true, [⟨"f_1.dat", 42⟩]⟩)
        ⟨"f", ".dat", 5, none, some 99⟩).stats.duplicatesSkipped
        = (initState emptyDir emptyDir
            ⟨true, [⟨"f_1.dat", 42⟩]⟩).stats.duplicatesSkipped + 1 ∧
      copiedTotal (processOne cfgReal (initState emptyDir emptyDir ⟨true, [⟨"f_1.dat", 42⟩]⟩)
        ⟨"f", ".dat", 5, none, some 99⟩).stats
        = copiedTotal (initState emptyDir emptyDir ⟨true, [⟨"f_1.dat", 42⟩]⟩).stats) := by
  have h := exactDedup_unseeded_glob_resume emptyDir emptyDir emptyDir cfgReal
    (initState emptyDir emptyDir ⟨true, [⟨"f_1.dat", 42⟩]⟩)
    ⟨"f", ".dat", 5, none, some 99⟩ rfl (by decide) (by decide)
  exact ⟨rfl, by decide, by decide, h.1, h.2.2.2.1, h.2.2.2.2.2.1, h.2.2.2.2.2.2⟩

/-- **C2 (amended).** A second run never re-copies a file the first run
copied: any candidate whose indexed copy `{stem}_{k}{suffix}` already
exists in its destination subfolder is counted as a duplicate by the
stem-glob resume check and nothing is copied or hashed for it.  (The
second run is *not* guaranteed to copy zero new files: a file counted
as a duplicate in the first run — byte-identical to a copied file but
with a different stem — is re-hashed against the unseeded set and newly
copied, as the counterexample shows.) -/
theorem exactDedup_second_run_skips_copied (cfg : Config) (st : RunState)
    (c : Candidate) (k w : Nat)
    (hdry : cfg.dryRun = false) (hp : passesFilters cfg c = true)
    (hmem : (⟨mkIndexedName c.stem k (strToLower c.suffix), w⟩ : DFile)
      ∈ (destDirOf st (classifyFile c cfg.minVideoSize)).files) :
    (processOne cfg st c).imgs = st.imgs ∧
    (processOne cfg st c).vids = st.vids ∧
    (processOne cfg st c).oth = st.oth ∧
    (processOne cfg st c).hashesSeen = st.hashesSeen ∧
    (processOne cfg st c).stats.duplicatesSkipped = st.stats.duplicatesSkipped + 1 ∧
    copiedTotal (processOne cfg st c).stats = copiedTotal st.stats := by
  have hglob : (destDirOf st (classifyFile c cfg.minVideoSize)).files.any
      (fun f => globMatch c.stem (strToLower c.suffix) f.name) = true :=
    List.any_eq_true.mpr ⟨⟨mkIndexedName c.stem k (strToLower c.suffix), w⟩, hmem,
      globMatch_own_copy c.stem (strToLower c.suffix) k⟩
  have h := processOne_globHit cfg st c hdry hp hglob
  exact ⟨h.1, h.2.1, h.2.2.1, h.2.2.2.1, h.2.2.2.2.2.1, h.2.2.2.2.2.2⟩

/-- Witness for `exactDedup_second_run_skips_copied`: the copy
`a_1.dat` of candidate `a.dat` is already at the destination. -/
theorem exactDedup_second_run_skips_copied_witness :
    cfgReal.dryRun = false ∧
    passesFilters cfgReal ⟨"a", ".dat", 5, none, some 7⟩ = true ∧
    (⟨mkIndexedName "a" 1 (strToLower ".dat"), 7⟩ : DFile)
      ∈ (destDirOf (initState emptyDir emptyDir ⟨true, [⟨"a_1.dat", 7⟩]⟩)
        (classifyFile ⟨"a", ".dat", 5, none, some 7⟩ cfgReal.minVideoSize)).files ∧
    ((processOne cfgReal (initState emptyDir emptyDir ⟨true, [⟨"a_1.dat", 7⟩]⟩)
        ⟨"a", ".dat", 5, none, some 7⟩).oth
        = (initState emptyDir emptyDir ⟨true, [⟨"a_1.dat", 7⟩]⟩).oth ∧
      (processOne cfgReal (initState emptyDir emptyDir ⟨true, [⟨"a_1.dat", 7⟩]⟩)
        ⟨"a", ".dat", 5, none, some 7⟩).stats.duplicatesSkipped
        = (initState emptyDir emptyDir ⟨true, [⟨"a_1.dat", 7⟩]⟩).stats.duplicatesSkipped
          + 1 ∧
      copiedTotal (processOne cfgReal (initState emptyDir emptyDir ⟨true, [⟨"a_1.dat", 7⟩]⟩)
        ⟨"a", ".dat", 5, none, some 7⟩).stats
        = copiedTotal (initState emptyDir emptyDir ⟨true, [⟨"a_1.dat", 7⟩]⟩).stats) := by
  have h := exactDedup_second_run_skips_copied cfgReal
    (initState emptyDir emptyDir ⟨true, [⟨"a_1.dat", 7⟩]⟩)
    ⟨"a", ".dat", 5, none, some 7⟩ 1 7 rfl (by decide) (by decide)
  exact ⟨rfl, by decide, by decide, h.2.2.1, h.2.2.2.2.1, h.2.2.2.2.2⟩

theorem exactDedup_pair_run (cfg : Config) (x y : Candidate) (v : Nat)
    (hdry : cfg.dryRun = false)
    (hvx : x.content = some v) (hvy : y.content = some v)
    (hpx : passesFilters cfg x = true) (hpy : passesFilters cfg y = true) :
    copiedTotal (processFiles cfg emptyDir emptyDir emptyDir [x, y]).stats = 1 ∧
    (processFiles cfg emptyDir emptyDir emptyDir [x, y]).stats.duplicatesSkipped = 1 ∧
    destCount (processFiles cfg emptyDir emptyDir emptyDir [x, y]) = 1 := by
  have h1 := processOne_fresh_real cfg (initState emptyDir emptyDir emptyDir) x v hdry hpx
    hvx (by simp [initState]) (fun kind => by cases kind <;> rfl)
  have hseen : v ∈ (processOne cfg (initState emptyDir emptyDir emptyDir) x).hashesSeen := by
    rw [h1.1]; exact List.mem_cons_self _ _
  have h2 := processOne_seen cfg (processOne cfg (initState emptyDir emptyDir emptyDir) x)
    y v hpy hvy hseen
  have hfold : processFiles cfg emptyDir emptyDir emptyDir [x, y]
      = processOne cfg (processOne cfg (initState emptyDir emptyDir emptyDir) x) y := rfl
  rw [hfold]
  refine ⟨?_, ?_, ?_⟩
  · rw [h2.2.1, h1.2.1]; rfl
  · rw [h2.2.2.1, h1.2.2.1]; rfl
  · rw [h2.2.2.2, h1.2.2.2]; rfl

/-- **C3.** In one non-dry run over two candidates with byte-identical
content (both passing the size/validity filters, destination initially
empty), exactly one of the two is copied — the run's copied total and
the destination file count both end at 1 — and the other increments
`duplicatesSkipped`, in either processing order. -/
theorem exactDedup_pair_exactly_one_copied (cfg : Config) (a b : Candidate) (v : Nat)
    (hdry : cfg.dryRun = false)
    (hva : a.content = some v) (hvb : b.content = some v)
    (hpa : passesFilters cfg a = true) (hpb : passesFilters cfg b = true) :
    (copiedTotal (processFiles cfg emptyDir emptyDir emptyDir [a, b]).stats = 1 ∧
      (processFiles cfg emptyDir emptyDir emptyDir [a, b]).stats.duplicatesSkipped = 1 ∧
      destCount (processFiles cfg emptyDir emptyDir emptyDir [a, b]) = 1) ∧
    (copiedTotal (processFiles cfg emptyDir emptyDir emptyDir [b, a]).stats = 1 ∧
      (processFiles cfg emptyDir emptyDir emptyDir [b, a]).stats.duplicatesSkipped = 1 ∧
      destCount (processFiles cfg emptyDir emptyDir emptyDir [b, a]) = 1) :=
  ⟨exactDedup_pair_run cfg a b v hdry hva hvb hpa hpb,
    exactDedup_pair_run cfg b a v hdry hvb hva hpb hpa⟩

/-- Witness for `exactDedup_pair_exactly_one_copied` at two `.dat`
candidates of content 7. -/
theorem exactDedup_pair_exactly_one_copied_witness :
    cfgReal.dryRun = false ∧
    (⟨"a", ".dat", 5, none, some 7⟩ : Candidate).content = some 7 ∧
    (⟨"b", ".dat", 5, none, some 7⟩ : Candidate).content = some 7 ∧
    passesFilters cfgReal ⟨"a", ".dat", 5, none, some 7⟩ = true ∧
    passesFilters cfgReal ⟨"b", ".dat", 5, none, some 7⟩ = true ∧
    ((copiedTotal (processFiles cfgReal emptyDir emptyDir emptyDir
        [⟨"a", ".dat", 5, none, some 7⟩, ⟨"b", ".dat", 5, none, some 7⟩]).stats = 1 ∧
      (processFiles cfgReal emptyDir emptyDir emptyDir
        [⟨"a", ".dat", 5, none, some 7⟩,
          ⟨"b", ".dat", 5, none, some 7⟩]).stats.duplicatesSkipped = 1 ∧
      destCount (processFiles cfgReal emptyDir emptyDir emptyDir
        [⟨"a", ".dat", 5, none, some 7⟩, ⟨"b", ".dat", 5, none, some 7⟩]) = 1) ∧
    (copiedTotal (processFiles cfgReal emptyDir emptyDir emptyDir
        [⟨"b", ".dat", 5, none, some 7⟩, ⟨"a", ".dat", 5, none, some 7⟩]).stats = 1 ∧
      (processFiles cfgReal emptyDir emptyDir emptyDir
        [⟨"b", ".dat", 5, none, some 7⟩,
          ⟨"a", ".dat", 5, none, some 7⟩]).stats.duplicatesSkipped = 1 ∧
      destCount (processFiles cfgReal emptyDir emptyDir emptyDir
        [⟨"b", ".dat", 5, none, some 7⟩, ⟨"a", ".dat", 5, none, some 7⟩]) = 1)) :=
  ⟨rfl, rfl, rfl, by decide, by decide,
    exactDedup_pair_exactly_one_copied cfgReal
      ⟨"a", ".dat", 5, none, some 7⟩ ⟨"b", ".dat", 5, none, some 7⟩ 7
      rfl rfl rfl (by decide) (by decide)⟩

theorem processOne_hashError (cfg : Config) (st : RunState) (u : Candidate)
    (hp : passesFilters cfg u = true) (hc : u.content = none)
    (hng : cfg.dryRun = false →
      (destDirOf st (classifyFile u cfg.minVideoSize)).files.any
        (fun f => globMatch u.stem (strToLower u.suffix) f.name) = false) :
    (processOne cfg st u).imgs = st.imgs ∧
    (processOne cfg st u).vids = st.vids ∧
    (processOne cfg st u).oth = st.oth ∧
    (processOne cfg st u).hashesSeen = st.hashesSeen ∧
    (processOne cfg st u).index = st.index ∧
    (processOne cfg st u).stats.duplicatesSkipped = st.stats.duplicatesSkipped + 1 ∧
    copiedTotal (processOne cfg st u).stats = copiedTotal st.stats := by
  cases hk : classifyFile u cfg.minVideoSize with
  | skipTiny => simp [passesFilters, hk] at hp
  | image =>
    simp only [passesFilters, hk, Bool.and_eq_true, Bool.not_eq_true'] at hp
    simp only [processOne, hk, hp.1, hp.2, Bool.not_true, Bool.false_eq_true, if_false]
    rw [dedupeAndCopy_hashError cfg u Kind.image (bumpSeen (bumpTotal st) Kind.image) hc
      (by intro hd; have h := hng hd; rw [hk] at h
          simpa [bumpSeen, bumpTotal, destDirOf] using h)]
    exact ⟨rfl, rfl, rfl, rfl, rfl, rfl, rfl⟩
  | video =>
    simp only [processOne, hk]
    rw [dedupeAndCopy_hashError cfg u Kind.video (bumpSeen (bumpTotal st) Kind.video) hc
      (by intro hd; have h := hng hd; rw [hk] at h
          simpa [bumpSeen, bumpTotal, destDirOf] using h)]
    exact ⟨rfl, rfl, rfl, rfl, rfl, rfl, rfl⟩
  | other =>
    simp only [processOne, hk]
    rw [dedupeAndCopy_hashError cfg u Kind.other (bumpSeen (bumpTotal st) Kind.other) hc
      (by intro hd; have h := hng hd; rw [hk] at h
          simpa [bumpSeen, bumpTotal, destDirOf] using h)]
    exact ⟨rfl, rfl, rfl, rfl, rfl, rfl, rfl⟩

/-- **C8 (amended).** A hashing/read error on one file is recovered
locally: the file's only effect is a `duplicatesSkipped` increment (the
destination directories, `hashesSeen`, copy counters and `index` are
untouched) and the batch continues with the remaining files.
`processFiles` has no separate error counter: a hash failure *does*
increment the shared duplicate counter. -/
theorem hashError_recovered_but_counted_as_duplicate (cfg : Config) (st : RunState)
    (u : Candidate) (rest : List Candidate)
    (hp : passesFilters cfg u = true) (hc : u.content = none)
    (hng : cfg.dryRun = false →
      (destDirOf st (classifyFile u cfg.minVideoSize)).files.any
        (fun f => globMatch u.stem (strToLower u.suffix) f.name) = false) :
    (processOne cfg st u).imgs = st.imgs ∧
    (processOne cfg st u).vids = st.vids ∧
    (processOne cfg st u).oth = st.oth ∧
    (processOne cfg st u).hashesSeen = st.hashesSeen ∧
    (processOne cfg st u).index = st.index ∧
    (processOne cfg st u).stats.duplicatesSkipped = st.stats.duplicatesSkipped + 1 ∧
    copiedTotal (processOne cfg st u).stats = copiedTotal st.stats ∧
    processFilesFrom cfg st (u :: rest) = processFilesFrom cfg (processOne cfg st u) rest := by
  have h := processOne_hashError cfg st u hp hc hng
  exact ⟨h.1, h.2.1, h.2.2.1, h.2.2.2.1, h.2.2.2.2.1, h.2.2.2.2.2.1, h.2.2.2.2.2.2, rfl⟩

/-- Witness for `hashError_recovered_but_counted_as_duplicate` at an
unreadable `.dat` candidate followed by one readable file. -/
theorem hashError_recovered_but_counted_as_duplicate_witness :
    passesFilters cfgReal ⟨"u", ".dat", 5, none, none⟩ = true ∧
    (⟨"u", ".dat", 5, none, none⟩ : Candidate).content = none ∧
    (cfgReal.dryRun = false →
      (destDirOf (initState emptyDir emptyDir emptyDir)
        (classifyFile ⟨"u", ".dat", 5, none, none⟩ cfgReal.minVideoSize)).files.any
        (fun f => globMatch "u" (strToLower ".dat") f.name) = false) ∧
    ((processOne cfgReal (initState emptyDir emptyDir emptyDir)
        ⟨"u", ".dat", 5, none, none⟩).imgs = (initState emptyDir emptyDir emptyDir).imgs ∧
      (processOne cfgReal (initState emptyDir emptyDir emptyDir)
        ⟨"u", ".dat", 5, none, none⟩).vids = (initState emptyDir emptyDir emptyDir).vids ∧
      (processOne cfgReal (initState emptyDir emptyDir emptyDir)
        ⟨"u", ".dat", 5, none, none⟩).oth = (initState emptyDir emptyDir emptyDir).oth ∧
      (processOne cfgReal (initState emptyDir emptyDir emptyDir)
        ⟨"u", ".dat", 5, none, none⟩).hashesSeen
        = (initState emptyDir emptyDir emptyDir).hashesSeen ∧
      (processOne cfgReal (initState emptyDir emptyDir emptyDir)
        ⟨"u", ".dat", 5, none, none⟩).index = (initState emptyDir emptyDir emptyDir).index ∧
      (processOne cfgReal (initState emptyDir emptyDir emptyDir)
        ⟨"u", ".dat", 5, none, none⟩).stats.duplicatesSkipped
        = (initState emptyDir emptyDir emptyDir).stats.duplicatesSkipped + 1 ∧
      copiedTotal (processOne cfgReal (initState emptyDir emptyDir emptyDir)
        ⟨"u", ".dat", 5, none, none⟩).stats
        = copiedTotal (initState emptyDir emptyDir emptyDir).stats ∧
      processFilesFrom cfgReal (initState emptyDir emptyDir emptyDir)
        (⟨"u", ".dat", 5, none, none⟩ :: [⟨"w", ".dat", 5, none, some 3⟩])
        = processFilesFrom cfgReal
          (processOne cfgReal (initState emptyDir emptyDir emptyDir)
            ⟨"u", ".dat", 5, none, none⟩) [⟨"w", ".dat", 5, none, some 3⟩]) :=
  ⟨by decide, rfl, by intro h; decide,
    hashError_recovered_but_counted_as_duplicate cfgReal
      (initState emptyDir emptyDir emptyDir) ⟨"u", ".dat", 5, none, none⟩
      [⟨"w", ".dat", 5, none, some 3⟩] (by decide) rfl (by intro h; decide)⟩

theorem dedupeAndCopy_dry_dirs (cfg : Config) (c : Candidate) (kind : Kind) (st : RunState)
    (hdry : cfg.dryRun = true) :
    (dedupeAndCopy cfg c kind st).imgs = st.imgs ∧
    (dedupeAndCopy cfg c kind st).vids = st.vids ∧
    (dedupeAndCopy cfg c kind st).oth = st.oth := by
  unfold dedupeAndCopy
  simp only [hdry, Bool.not_true, Bool.false_and, Bool.false_eq_true, if_false]
  cases hc : hashFile c with
  | none => exact ⟨rfl, rfl, rfl⟩
  | some v =>
    by_cases hm : v ∈ st.hashesSeen
    · simp only [hm, if_true]
      exact ⟨rfl, rfl, rfl⟩
    · simp only [hm, if_false, if_true]
      cases kind <;> exact ⟨rfl, rfl, rfl⟩

theorem processOne_dry_dirs (cfg : Config) (st : RunState) (c : Candidate)
    (hdry : cfg.dryRun = true) :
    (processOne cfg st c).imgs = st.imgs ∧
    (processOne cfg st c).vids = st.vids ∧
    (processOne cfg st c).oth = st.oth := by
  cases hk : classifyFile c cfg.minVideoSize with
  | skipTiny =>
    simp only [processOne, hk]
    exact ⟨rfl, rfl, rfl⟩
  | image =>
    simp only [processOne, hk]
    by_cases h1 : (analyseImage c.imgStats cfg.blackMean cfg.blackStd).1 = true
    · by_cases h2 : (analyseImage c.imgStats cfg.blackMean cfg.blackStd).2 = true
      · simp only [h1, h2, Bool.not_true, Bool.false_eq_true, if_false, if_true]
        exact ⟨rfl, rfl, rfl⟩
      · have h2' : (analyseImage c.imgStats cfg.blackMean cfg.blackStd).2 = false :=
          Bool.not_eq_true _ ▸ eq_false_of_ne_true h2
        simp only [h1, h2', Bool.not_true, Bool.false_eq_true, if_false]
        have hd := dedupeAndCopy_dry_dirs cfg c Kind.image
          (bumpSeen (bumpTotal st) Kind.image) hdry
        exact ⟨hd.1.trans rfl, hd.2.1.trans rfl, hd.2.2.trans rfl⟩
    · have h1' : (analyseImage c.imgStats cfg.blackMean cfg.blackStd).1 = false :=
        eq_false_of_ne_true h1
      simp only [h1', Bool.not_false, if_true]
      exact ⟨rfl, rfl, rfl⟩
  | video =>
    simp only [processOne, hk]
    have hd := dedupeAndCopy_dry_dirs cfg c Kind.video
      (bumpSeen (bumpTotal st) Kind.video) hdry
    exact ⟨hd.1.trans rfl, hd.2.1.trans rfl, hd.2.2.trans rfl⟩
  | other =>
    simp only [processOne, hk]
    have hd := dedupeAndCopy_dry_dirs cfg c Kind.other
      (bumpSeen (bumpTotal st) Kind.other) hdry
    exact ⟨hd.1.trans rfl, hd.2.1.trans rfl, hd.2.2.trans rfl⟩

theorem processFilesFrom_dry_dirs (cfg : Config) (hdry : cfg.dryRun = true) :
    ∀ (cs : List Candidate) (st : RunState),
      (processFilesFrom cfg st cs).imgs = st.imgs ∧
      (processFilesFrom cfg st cs).vids = st.vids ∧
      (processFilesFrom cfg st cs).oth = st.oth := by
  intro cs
  induction cs with
  | nil => intro st; exact ⟨rfl, rfl, rfl⟩
  | cons c cs ih =>
    intro st
    have h1 := processOne_dry_dirs cfg st c hdry
    have h2 := ih (processOne cfg st c)
    exact ⟨h2.1.trans h1.1, h2.2.1.trans h1.2.1, h2.2.2.trans h1.2.2⟩

/-- `destDir.glob(f"{c.stem}_*{c.suffix.lower()}")` finds nothing in
directory `d`. -/
def cleanFor (c : Candidate) (d : DirSt) : Prop :=
  d.files.any (fun f => globMatch c.stem (strToLower c.suffix) f.name) = false

/-- No name `copyFile` could produce for candidate `c` matches the
resume pattern of candidate `c'`. -/
def noCopyMatch (c c' : Candidate) : Prop :=
  ∀ k, globMatch c'.stem (strToLower c'.suffix)
    (mkIndexedName c.stem k (strToLower c.suffix)) = false

theorem cleanFor_copyFile (c c' : Candidate) (v idx : Nat) (d : DirSt)
    (hcl : cleanFor c' d) (hnm : noCopyMatch c c') :
    cleanFor c' (copyFile c v idx d) := by
  unfold cleanFor copyFile
  unfold cleanFor at hcl
  simp only [List.any_cons, hcl, hnm _, Bool.or_false]

theorem dedupeAndCopy_dry_real_sync (cfgD cfgR : Config) (c : Candidate) (kind : Kind)
    (stD stR : RunState)
    (hD : cfgD.dryRun = true) (hR : cfgR.dryRun = false)
    (hstats : stD.stats = stR.stats) (hh : stD.hashesSeen = stR.hashesSeen)
    (hi : stD.index = stR.index)
    (hcleanK : (destDirOf stR kind).files.any
      (fun f => globMatch c.stem (strToLower c.suffix) f.name) = false) :
    (dedupeAndCopy cfgD c kind stD).stats = (dedupeAndCopy cfgR c kind stR).stats ∧
    (dedupeAndCopy cfgD c kind stD).hashesSeen = (dedupeAndCopy cfgR c kind stR).hashesSeen ∧
    (dedupeAndCopy cfgD c kind stD).index = (dedupeAndCopy cfgR c kind stR).index ∧
    (∀ c', cleanFor c' stR.imgs → noCopyMatch c c' →
      cleanFor c' (dedupeAndCopy cfgR c kind stR).imgs) ∧
    (∀ c', cleanFor c' stR.vids → noCopyMatch c c' →
      cleanFor c' (dedupeAndCopy cfgR c kind stR).vids) ∧
    (∀ c', cleanFor c' stR.oth → noCopyMatch c c' →
      cleanFor c' (dedupeAndCopy cfgR c kind stR).oth) := by
  unfold dedupeAndCopy
  simp only [hD, hR, Bool.not_true, Bool.not_false, Bool.false_and, Bool.true_and,
    Bool.false_eq_true, if_false, hcleanK]
  cases hc : hashFile c with
  | none =>
    refine ⟨by simp [bumpDup, hstats], by simp [bumpDup, hh], by simp [bumpDup, hi],
      ?_, ?_, ?_⟩ <;> (intro c' hcl _; simpa [bumpDup] using hcl)
  | some v =>
    by_cases hm : v ∈ stR.hashesSeen
    · have hmD : v ∈ stD.hashesSeen := by rw [hh]; exact hm
      simp only [hmD, hm, if_true]
      refine ⟨by simp [bumpDup, hstats], by simp [bumpDup, hh], by simp [bumpDup, hi],
        ?_, ?_, ?_⟩ <;> (intro c' hcl _; simpa [bumpDup] using hcl)
    · have hmD : v ∉ stD.hashesSeen := by rw [hh]; exact hm
      simp only [hmD, hm, if_false, if_true]
      cases kind with
      | image =>
        refine ⟨by simp [bumpCopied, setDestDir, hstats],
          by simp [bumpCopied, setDestDir, hh],
          by simp [bumpCopied, setDestDir, hi], ?_, ?_, ?_⟩
        · intro c' hcl hnm
          exact cleanFor_copyFile c c' v stR.index stR.imgs hcl hnm
        · intro c' hcl _; exact hcl
        · intro c' hcl _; exact hcl
      | video =>
        refine ⟨by simp [bumpCopied, setDestDir, hstats],
          by simp [bumpCopied, setDestDir, hh],
          by simp [bumpCopied, setDestDir, hi], ?_, ?_, ?_⟩
        · intro c' hcl _; exact hcl
        · intro c' hcl hnm
          exact cleanFor_copyFile c c' v stR.index stR.vids hcl hnm
        · intro c' hcl _; exact hcl
      | other =>
        refine ⟨by simp [bumpCopied, setDestDir, hstats],
          by simp [bumpCopied, setDestDir, hh],
          by simp [bumpCopied, setDestDir, hi], ?_, ?_, ?_⟩
        · intro c' hcl _; exact hcl
        · intro c' hcl _; exact hcl
        · intro c' hcl hnm
          exact cleanFor_copyFile c c' v stR.index stR.oth hcl hnm
      | skipTiny =>
        refine ⟨by simp [bumpCopied, setDestDir, hstats],
          by simp [bumpCopied, setDestDir, hh],
          by simp [bumpCopied, setDestDir, hi], ?_, ?_, ?_⟩
        · intro c' hcl _; exact hcl
        · intro c' hcl _; exact hcl
        · intro c' hcl hnm
          exact cleanFor_copyFile c c' v stR.index stR.oth hcl hnm

theorem processOne_dry_real_sync (cfgD cfgR : Config) (c : Candidate) (stD stR : RunState)
    (hD : cfgD.dryRun = true) (hR : cfgR.dryRun = false)
    (hmin : cfgD.minVideoSize = cfgR.minVideoSize)
    (hbm : cfgD.blackMean = cfgR.blackMean) (hbs : cfgD.blackStd = cfgR.blackStd)
    (hstats : stD.stats = stR.stats) (hh : stD.hashesSeen = stR.hashesSeen)
    (hi : stD.index = stR.index)
    (hclean : cleanFor c stR.imgs ∧ cleanFor c stR.vids ∧ cleanFor c stR.oth) :
    (processOne cfgD stD c).stats = (processOne cfgR stR c).stats ∧
    (processOne cfgD stD c).hashesSeen = (processOne cfgR stR c).hashesSeen ∧
    (processOne cfgD stD c).index = (processOne cfgR stR c).index ∧
    (∀ c', (cleanFor c' stR.imgs ∧ cleanFor c' stR.vids ∧ cleanFor c' stR.oth) →
      noCopyMatch c c' →
      (cleanFor c' (processOne cfgR stR c).imgs ∧
        cleanFor c' (processOne cfgR stR c).vids ∧
        cleanFor c' (processOne cfgR stR c).oth)) := by
  cases hk : classifyFile c cfgR.minVideoSize with
  | skipTiny =>
    have hkD : classifyFile c cfgD.minVideoSize = Kind.skipTiny := by rw [hmin]; exact hk
    simp only [processOne, hk, hkD]
    refine ⟨by simp [bumpTotal, hstats], by simp [bumpTotal, hh], by simp [bumpTotal, hi], ?_⟩
    intro c' hcl _
    exact hcl
  | image =>
    have hkD : classifyFile c cfgD.minVideoSize = Kind.image := by rw [hmin]; exact hk
    simp only [processOne, hk, hkD, hbm, hbs]
    by_cases h1 : (analyseImage c.imgStats cfgR.blackMean cfgR.blackStd).1 = true
    · by_cases h2 : (analyseImage c.imgStats cfgR.blackMean cfgR.blackStd).2 = true
      · simp only [h1, h2, Bool.not_true, Bool.false_eq_true, if_false, if_true]
        refine ⟨by simp [bumpSeen, bumpTotal, hstats], by simp [bumpSeen, bumpTotal, hh],
          by simp [bumpSeen, bumpTotal, hi], ?_⟩
        intro c' hcl _
        exact hcl
      · have h2' : (analyseImage c.imgStats cfgR.blackMean cfgR.blackStd).2 = false :=
          eq_false_of_ne_true h2
        simp only [h1, h2', Bool.not_true, Bool.false_eq_true, if_false]
        have h := dedupeAndCopy_dry_real_sync cfgD cfgR c Kind.image
          (bumpSeen (bumpTotal stD) Kind.image) (bumpSeen (bumpTotal stR) Kind.image)
          hD hR (by simp [bumpSeen, bumpTotal, hstats]) (by simp [bumpSeen, bumpTotal, hh])
          (by simp [bumpSeen, bumpTotal, hi]) hclean.1
        refine ⟨h.1, h.2.1, h.2.2.1, ?_⟩
        intro c' hcl hnm
        exact ⟨h.2.2.2.1 c' hcl.1 hnm, h.2.2.2.2.1 c' hcl.2.1 hnm,
          h.2.2.2.2.2 c' hcl.2.2 hnm⟩
    · have h1' : (analyseImage c.imgStats cfgR.blackMean cfgR.blackStd).1 = false :=
        eq_false_of_ne_true h1
      simp only [h1', Bool.not_false, if_true]
      refine ⟨by simp [bumpSeen, bumpTotal, hstats], by simp [bumpSeen, bumpTotal, hh],
        by simp [bumpSeen, bumpTotal, hi], ?_⟩
      intro c' hcl _
      exact hcl
  | video =>
    have hkD : classifyFile c cfgD.minVideoSize = Kind.video := by rw [hmin]; exact hk
    simp only [processOne, hk, hkD]
    have h := dedupeAndCopy_dry_real_sync cfgD cfgR c Kind.video
      (bumpSeen (bumpTotal stD) Kind.video) (bumpSeen (bumpTotal stR) Kind.video)
      hD hR (by simp [bumpSeen, bumpTotal, hstats]) (by simp [bumpSeen, bumpTotal, hh])
      (by simp [bumpSeen, bumpTotal, hi]) hclean.2.1
    refine ⟨h.1, h.2.1, h.2.2.1, ?_⟩
    intro c' hcl hnm
    exact ⟨h.2.2.2.1 c' hcl.1 hnm, h.2.2.2.2.1 c' hcl.2.1 hnm,
      h.2.2.2.2.2 c' hcl.2.2 hnm⟩
  | other =>
    have hkD : classifyFile c cfgD.minVideoSize = Kind.other := by rw [hmin]; exact hk
    simp only [processOne, hk, hkD]
    have h := dedupeAndCopy_dry_real_sync cfgD cfgR c Kind.other
      (bumpSeen (bumpTotal stD) Kind.other) (bumpSeen (bumpTotal stR) Kind.other)
      hD hR (by simp [bumpSeen, bumpTotal, hstats]) (by simp [bumpSeen, bumpTotal, hh])
      (by simp [bumpSeen, bumpTotal, hi]) hclean.2.2
    refine ⟨h.1, h.2.1, h.2.2.1, ?_⟩
    intro c' hcl hnm
    exact ⟨h.2.2.2.1 c' hcl.1 hnm, h.2.2.2.2.1 c' hcl.2.1 hnm,
      h.2.2.2.2.2 c' hcl.2.2 hnm⟩

theorem processFilesFrom_dry_real_sync (cfgD cfgR : Config)
    (hD : cfgD.dryRun = true) (hR : cfgR.dryRun = false)
    (hmin : cfgD.minVideoSize = cfgR.minVideoSize)
    (hbm : cfgD.blackMean = cfgR.blackMean) (hbs : cfgD.blackStd = cfgR.blackStd) :
    ∀ (cs : List Candidate) (stD stR : RunState),
      stD.stats = stR.stats → stD.hashesSeen = stR.hashesSeen → stD.index = stR.index →
      (∀ c ∈ cs, cleanFor c stR.imgs ∧ cleanFor c stR.vids ∧ cleanFor c stR.oth) →
      List.Pairwise noCopyMatch cs →
      (processFilesFrom cfgD stD cs).stats = (processFilesFrom cfgR stR cs).stats := by
  intro cs
  induction cs with
  | nil => intro stD stR hstats _ _ _ _; exact hstats
  | cons c cs ih =>
    intro stD stR hstats hh hi hclean hpw
    rw [List.pairwise_cons] at hpw
    have hstep := processOne_dry_real_sync cfgD cfgR c stD stR hD hR hmin hbm hbs
      hstats hh hi (hclean c (List.mem_cons_self c cs))
    refine ih (processOne cfgD stD c) (processOne cfgR stR c) hstep.1 hstep.2.1
      hstep.2.2.1 ?_ hpw.2
    intro c' hc'
    exact hstep.2.2.2 c' (hclean c' (List.mem_cons_of_mem c hc')) (hpw.1 c' hc')

/-- **C9 (amended).** A `--dry-run` pass copies no file: the three
destination directories' file lists are exactly as before the run (its
only filesystem effect is `ensureTargetSubdirs` creating `Images/`,
`Videos/`, `Other/`, which it still performs).  Its per-file decisions
and counters agree with a real run over the same input whenever the
stem-glob resume check — which the dry run skips — would never fire:
no candidate's resume pattern matches a pre-existing destination file
or a name copied for an earlier candidate. -/
theorem dryRun_no_copy_and_conditional_agreement (cfg : Config)
    (imgs vids oth : DirSt) (cs : List Candidate) :
    (processFiles { cfg with dryRun := true } imgs vids oth cs).imgs.files = imgs.files ∧
    (processFiles { cfg with dryRun := true } imgs vids oth cs).vids.files = vids.files ∧
    (processFiles { cfg with dryRun := true } imgs vids oth cs).oth.files = oth.files ∧
    (processFiles { cfg with dryRun := true } imgs vids oth cs).imgs.present = true ∧
    (processFiles { cfg with dryRun := true } imgs vids oth cs).vids.present = true ∧
    (processFiles { cfg with dryRun := true } imgs vids oth cs).oth.present = true ∧
    ((∀ c ∈ cs, cleanFor c (ensureDir imgs) ∧ cleanFor c (ensureDir vids) ∧
        cleanFor c (ensureDir oth)) →
      List.Pairwise noCopyMatch cs →
      (processFiles { cfg with dryRun := true } imgs vids oth cs).stats
        = (processFiles { cfg with dryRun := false } imgs vids oth cs).stats) := by
  have hdirs := processFilesFrom_dry_dirs { cfg with dryRun := true } rfl cs
    (initState imgs vids oth)
  simp only [processFiles]
  refine ⟨?_, ?_, ?_, ?_, ?_, ?_, ?_⟩
  · rw [hdirs.1]; rfl
  · rw [hdirs.2.1]; rfl
  · rw [hdirs.2.2]; rfl
  · rw [hdirs.1]; rfl
  · rw [hdirs.2.1]; rfl
  · rw [hdirs.2.2]; rfl
  · intro hclean hpw
    exact processFilesFrom_dry_real_sync { cfg with dryRun := true }
      { cfg with dryRun := false } rfl rfl rfl rfl rfl cs
      (initState imgs vids oth) (initState imgs vids oth) rfl rfl rfl hclean hpw

/-- Witness for `dryRun_no_copy_and_conditional_agreement` at one
`.dat` candidate over empty destination directories. -/
theorem dryRun_no_copy_and_conditional_agreement_witness :
    ((processFiles { cfgReal with dryRun := true } emptyDir emptyDir emptyDir
        [⟨"a", ".dat", 5, none, some 7⟩]).imgs.files = emptyDir.files ∧
      (processFiles { cfgReal with dryRun := true } emptyDir emptyDir emptyDir
        [⟨"a", ".dat", 5, none, some 7⟩]).oth.files = emptyDir.files) ∧
    (∀ c ∈ [(⟨"a", ".dat", 5, none, some 7⟩ : Candidate)],
      cleanFor c (ensureDir emptyDir) ∧ cleanFor c (ensureDir emptyDir) ∧
        cleanFor c (ensureDir emptyDir)) ∧
    List.Pairwise noCopyMatch [(⟨"a", ".dat", 5, none, some 7⟩ : Candidate)] ∧
    (processFiles { cfgReal with dryRun := true } emptyDir emptyDir emptyDir
        [⟨"a", ".dat", 5, none, some 7⟩]).stats
      = (processFiles { cfgReal with dryRun := false } emptyDir emptyDir emptyDir
        [⟨"a", ".dat", 5, none, some 7⟩]).stats := by
  have h := dryRun_no_copy_and_conditional_agreement cfgReal emptyDir emptyDir emptyDir
    [⟨"a", ".dat", 5, none, some 7⟩]
  have hclean : ∀ c ∈ [(⟨"a", ".dat", 5, none, some 7⟩ : Candidate)],
      cleanFor c (ensureDir emptyDir) ∧ cleanFor c (ensureDir emptyDir) ∧
        cleanFor c (ensureDir emptyDir) := by
    intro c _
    exact ⟨rfl, rfl, rfl⟩
  have hpw : List.Pairwise noCopyMatch [(⟨"a", ".dat", 5, none, some 7⟩ : Candidate)] :=
    List.pairwise_singleton _ _
  exact ⟨⟨h.1, h.2.2.1⟩, hclean, hpw, h.2.2.2.2.2.2 hclean hpw⟩

/-- **C9, counterexample.** With `Other/` already holding `f_1.dat`, a
dry run over candidate `f.dat` (content 99) counts it as copied while
the real run glob-skips it as a duplicate — the per-file decisions and
counters differ; and the dry run still creates the missing `Images/`
directory, so it does mutate the filesystem. -/
theorem dryRun_creates_dirs_and_diverges :
    (processFiles cfgDry ⟨false, []⟩ emptyDir ⟨true, [⟨"f_1.dat", 42⟩]⟩
      [⟨"f", ".dat", 5, none, some 99⟩]).imgs.present = true ∧
    (processFiles cfgDry ⟨false, []⟩ emptyDir ⟨true, [⟨"f_1.dat", 42⟩]⟩
      [⟨"f", ".dat", 5, none, some 99⟩]).stats.othersCopied = 1 ∧
    (processFiles cfgDry ⟨false, []⟩ emptyDir ⟨true, [⟨"f_1.dat", 42⟩]⟩
      [⟨"f", ".dat", 5, none, some 99⟩]).stats.duplicatesSkipped = 0 ∧
    (processFiles cfgReal ⟨false, []⟩ emptyDir ⟨true, [⟨"f_1.dat", 42⟩]⟩
      [⟨"f", ".dat", 5, none, some 99⟩]).stats.othersCopied = 0 ∧
    (processFiles cfgReal ⟨false, []⟩ emptyDir ⟨true, [⟨"f_1.dat", 42⟩]⟩
      [⟨"f", ".dat", 5, none, some 99⟩]).stats.duplicatesSkipped = 1 := by
  decide

/-- **C7.** `analyseImage` classifies a decodable image as near-black
exactly when every channel mean is ≤ `blackMeanThreshold` *and* every
channel standard deviation is ≤ `blackStdThreshold`; any decode failure
yields `(isValid, isBlack) = (false, false)` — `isBlack`
short-circuited to `false`, with no exception escaping (the function is
total and the exception branches are the `none` case). -/
theorem analyseImage_near_black_iff (blackMean blackStd : ℚ) :
    (∀ s : ImgStats,
      (analyseImage (some s) blackMean blackStd).1 = true ∧
      ((analyseImage (some s) blackMean blackStd).2 = true ↔
        (∀ m ∈ s.mean, m ≤ blackMean) ∧ (∀ d ∈ s.stddev, d ≤ blackStd))) ∧
    analyseImage none blackMean blackStd = (false, false) := by
  refine ⟨?_, rfl⟩
  intro s
  refine ⟨rfl, ?_⟩
  simp [analyseImage, List.all_eq_true]

/-- Witness for `analyseImage_near_black_iff`: a uniform black frame is
near-black, and an undecodable image is `(false, false)`. -/
theorem analyseImage_near_black_iff_witness :
    (analyseImage (some ⟨[0, 0, 0], [0, 0, 0]⟩) 2 3).2 = true ∧
    (analyseImage (some ⟨[0, 0, 0], [0, 0, 0]⟩) 2 3).1 = true ∧
    analyseImage none 2 3 = (false, false) :=
  ⟨((analyseImage_near_black_iff 2 3).1 ⟨[0, 0, 0], [0, 0, 0]⟩).2.mpr
      (by constructor <;> (intro x hx; fin_cases hx <;> norm_num)),
    ((analyseImage_near_black_iff 2 3).1 ⟨[0, 0, 0], [0, 0, 0]⟩).1,
    (analyseImage_near_black_iff 2 3).2⟩

/-! ### `dedupeImages.py` and `filterBlackImages.py`: in-place passes

Paths are relative to the source root and represented as component
lists; a file is `dir ++ [stem ++ suffix]`.  `info` carries the
per-file analysis outcome: the perceptual fingerprint (`dedupeImages`,
`none` = `imagehash`/decode exception) or the decoded channel
statistics (`filterBlackImages`). -/

structure ImgFile (F : Type) where
  dir : List String
  stem : String
  suffix : String
  info : Option F
deriving DecidableEq

/-- The path of the file relative to the source root. -/
def ImgFile.rel {F : Type} (i : ImgFile F) : List String :=
  i.dir ++ [i.stem ++ i.suffix]

/-- The state of one `dedupeImages.py` run: the insertion-ordered
`seen` map (pHash → kept path), the occupied paths under `Duplicates/`,
the counters, and the (src, dst) move log. -/
structure DedupState (F : Type) where
  seen : List (F × List String)
  dupes : List (List String)
  kept : Nat
  moved : Nat
  errors : Nat
  movedList : List (List String × List String)

/-- One iteration of the `dedupeImages.py` main loop: fingerprint
failure counts an error; otherwise linearly scan `seen` for a
fingerprint within `threshold`; on a match, move the image under
`Duplicates/` (mirroring its relative path, with the `_1`, `_2`, …
collision loop); otherwise accept it. -/
def dedupeStep {F : Type} [DecidableEq F] (dist : F → F → Nat) (threshold : Nat)
    (st : DedupState F) (i : ImgFile F) : DedupState F :=
  match i.info with
  | none => { st with errors := st.errors + 1 }
  | some h =>
    match st.seen.find? (fun eh => decide (dist h eh.1 ≤ threshold)) with
    | none => { st with seen := st.seen ++ [(h, i.rel)], kept := st.kept + 1 }
    | some _ =>
      let target := resolveName ("Duplicates" :: i.dir ++ [i.stem ++ i.suffix])
        (fun k => "Duplicates" :: i.dir ++ [mkIndexedName i.stem k i.suffix]) st.dupes
      { st with
        dupes := target :: st.dupes,
        moved := st.moved + 1,
        movedList := st.movedList ++ [(i.rel, target)] }

/-- The `dedupeImages.py` main loop over the enumerated images, with
the initially occupied `Duplicates/` paths. -/
def dedupeImagesRun {F : Type} [DecidableEq F] (dist : F → F → Nat) (threshold : Nat)
    (imgs : List (ImgFile F)) (dupes0 : List (List String)) : DedupState F :=
  imgs.foldl (dedupeStep dist threshold) ⟨[], dupes0, 0, 0, 0, []⟩

/-- **C6.** The perceptual threshold boundary of the `dedupeImages.py`
main loop (run on the two images, i.e. with no other accepted
fingerprint present): when the distance from the later image's
fingerprint to the earlier's is ≤ `threshold`, the earlier image is
kept (it is the sole `seen` entry) and the later one is moved into
`Duplicates/`; when the distance is exactly `threshold + 1`, both are
kept and nothing is moved. -/
theorem perceptualDedup_threshold_boundary (F : Type) [DecidableEq F]
    (dist : F → F → Nat) (threshold : Nat) (a b : ImgFile F) (ha hb : F)
    (hpa : a.info = some ha) (hpb : b.info = some hb) :
    (dist hb ha ≤ threshold →
      (dedupeImagesRun dist threshold [a, b] []).seen = [(ha, a.rel)] ∧
      (dedupeImagesRun dist threshold [a, b] []).kept = 1 ∧
      (dedupeImagesRun dist threshold [a, b] []).moved = 1 ∧
      ∃ t, (dedupeImagesRun dist threshold [a, b] []).movedList = [(b.rel, t)] ∧
        t.head? = some "Duplicates") ∧
    (dist hb ha = threshold + 1 →
      (dedupeImagesRun dist threshold [a, b] []).seen = [(ha, a.rel), (hb, b.rel)] ∧
      (dedupeImagesRun dist threshold [a, b] []).kept = 2 ∧
      (dedupeImagesRun dist threshold [a, b] []).moved = 0 ∧
      (dedupeImagesRun dist threshold [a, b] []).movedList = []) := by
  have hstep1 : dedupeStep dist threshold ⟨[], [], 0, 0, 0, []⟩ a
      = ⟨[(ha, a.rel)], [], 1, 0, 0, []⟩ := by
    simp [dedupeStep, hpa]
  have hrun : dedupeImagesRun dist threshold [a, b] []
      = dedupeStep dist threshold (dedupeStep dist threshold ⟨[], [], 0, 0, 0, []⟩ a) b :=
    rfl
  constructor
  · intro hle
    have hfind : List.find? (fun eh => decide (dist hb eh.1 ≤ threshold))
        [((ha : F), a.rel)] = some (ha, a.rel) :=
      List.find?_cons_of_pos _ (by simpa using hle)
    rw [hrun, hstep1]
    simp only [dedupeStep, hpb, hfind]
    refine ⟨?_, ?_, ?_, ⟨"Duplicates" :: b.dir ++ [b.stem ++ b.suffix], ?_, ?_⟩⟩ <;>
      simp [resolveName]
  · intro heq
    have hfind : List.find? (fun eh => decide (dist hb eh.1 ≤ threshold))
        [((ha : F), a.rel)] = none := by
      rw [List.find?_cons_of_neg _ (by simp; omega)]
      rfl
    rw [hrun, hstep1]
    simp only [dedupeStep, hpb, hfind]
    refine ⟨?_, ?_, ?_, ?_⟩ <;> simp

/-- Witness for `perceptualDedup_threshold_boundary` with natural-number
fingerprints, absolute-difference distance and threshold 0: distance 0
→ one kept, one moved; distance 1 → both kept. -/
theorem perceptualDedup_threshold_boundary_witness :
    ((dedupeImagesRun (fun x y => max x y - min x y) 0
        [⟨[], "p", ".jpg", some 0⟩, ⟨[], "q", ".jpg", some 0⟩] []).kept = 1 ∧
      (dedupeImagesRun (fun x y => max x y - min x y) 0
        [⟨[], "p", ".jpg", some 0⟩, ⟨[], "q", ".jpg", some 0⟩] []).moved = 1) ∧
    ((dedupeImagesRun (fun x y => max x y - min x y) 0
        [⟨[], "p", ".jpg", some 0⟩, ⟨[], "r", ".jpg", some 1⟩] []).kept = 2 ∧
      (dedupeImagesRun (fun x y => max x y - min x y) 0
        [⟨[], "p", ".jpg", some 0⟩, ⟨[], "r", ".jpg", some 1⟩] []).moved = 0) :=
  ⟨⟨((perceptualDedup_threshold_boundary Nat (fun x y => max x y - min x y) 0
        ⟨[], "p", ".jpg", some 0⟩ ⟨[], "q", ".jpg", some 0⟩ 0 0 rfl rfl).1
        (by decide)).2.1,
      ((perceptualDedup_threshold_boundary Nat (fun x y => max x y - min x y) 0
        ⟨[], "p", ".jpg", some 0⟩ ⟨[], "q", ".jpg", some 0⟩ 0 0 rfl rfl).1
        (by decide)).2.2.1⟩,
    ⟨((perceptualDedup_threshold_boundary Nat (fun x y => max x y - min x y) 0
        ⟨[], "p", ".jpg", some 0⟩ ⟨[], "r", ".jpg", some 1⟩ 0 1 rfl rfl).2
        (by decide)).2.1,
      ((perceptualDedup_threshold_boundary Nat (fun x y => max x y - min x y) 0
        ⟨[], "p", ".jpg", some 0⟩ ⟨[], "r", ".jpg", some 1⟩ 0 1 rfl rfl).2
        (by decide)).2.2.1⟩⟩

/-- The image extension set of `recoveryCommon.py` (used by the
in-place passes; includes raw formats). -/
def COMMON_IMAGE_EXTS : List String :=
  [".jpg", ".jpeg", ".png", ".tif", ".tiff", ".bmp", ".gif", ".webp",
    ".heic", ".cr2", ".nef"]

/-- `recoveryCommon.isImage` on an enumerated file. -/
def isImageEntry {F : Type} (i : ImgFile F) : Bool :=
  COMMON_IMAGE_EXTS.contains (strToLower i.suffix)

/-- `p.is_relative_to(sourceDir / d)` for a file inside the source
tree: its first path component is `d`. -/
def underTopDir {F : Type} (d : String) (i : ImgFile F) : Bool :=
  match i.dir with
  | [] => false
  | x :: _ => x == d

/-- The enumeration of `dedupeImages.py`: image files not under
`Duplicates/`. -/
def dedupeEnum {F : Type} (tree : List (ImgFile F)) : List (ImgFile F) :=
  tree.filter (fun p => isImageEntry p && !underTopDir "Duplicates" p)

/-- The enumeration of `filterBlackImages.py`: image files not under
`BlackImages/` or `Duplicates/`. -/
def filterBlackEnum (tree : List (ImgFile ImgStats)) : List (ImgFile ImgStats) :=
  tree.filter (fun p => isImageEntry p &&
    !(underTopDir "BlackImages" p || underTopDir "Duplicates" p))

/-- The state of one `filterBlackImages.py` run. -/
structure FilterBlackState where
  black : List (List String)
  movedB : Nat
  keptB : Nat
  movedListB : List (List String × List String)

/-- One iteration of the `filterBlackImages.py` main loop: invalid or
near-black images are moved under `BlackImages/` (mirroring the
relative path, with the collision loop); others are kept. -/
def filterBlackStep (blackMean blackStd : ℚ) (st : FilterBlackState)
    (i : ImgFile ImgStats) : FilterBlackState :=
  let r := analyseImage i.info blackMean blackStd
  if !r.1 || r.2 then
    let target := resolveName ("BlackImages" :: i.dir ++ [i.stem ++ i.suffix])
      (fun k => "BlackImages" :: i.dir ++ [mkIndexedName i.stem k i.suffix]) st.black
    { st with
      black := target :: st.black,
      movedB := st.movedB + 1,
      movedListB := st.movedListB ++ [(i.rel, target)] }
  else { st with keptB := st.keptB + 1 }

/-- The `filterBlackImages.py` main loop. -/
def filterBlackRun (blackMean blackStd : ℚ) (imgs : List (ImgFile ImgStats))
    (black0 : List (List String)) : FilterBlackState :=
  imgs.foldl (filterBlackStep blackMean blackStd) ⟨black0, 0, 0, []⟩

/-- Source paths moved by a `dedupeImages.py` run. -/
def movedSrcs {F : Type} (st : DedupState F) : List (List String) :=
  st.movedList.map Prod.fst

/-- Source paths moved by a `filterBlackImages.py` run. -/
def movedSrcsB (st : FilterBlackState) : List (List String) :=
  st.movedListB.map Prod.fst

theorem dedupeStep_movedSrcs {F : Type} [DecidableEq F] (dist : F → F → Nat) (th : Nat)
    (st : DedupState F) (i : ImgFile F) (p : List String)
    (hp : p ∈ movedSrcs (dedupeStep dist th st i)) :
    p = i.rel ∨ p ∈ movedSrcs st := by
  unfold dedupeStep at hp
  cases hph : i.info with
  | none => simp only [hph] at hp; exact Or.inr hp
  | some h =>
    simp only [hph] at hp
    cases hf : st.seen.find? (fun eh => decide (dist h eh.1 ≤ th)) with
    | none => simp only [hf] at hp; exact Or.inr hp
    | some q =>
      simp only [hf] at hp
      simp only [movedSrcs, List.map_append, List.mem_append, List.map_cons,
        List.map_nil, List.mem_singleton] at hp
      rcases hp with hp | hp
      · exact Or.inr hp
      · exact Or.inl hp

theorem dedupeRun_movedSrcs {F : Type} [DecidableEq F] (dist : F → F → Nat) (th : Nat) :
    ∀ (imgs : List (ImgFile F)) (st : DedupState F) (p : List String),
      p ∈ movedSrcs (imgs.foldl (dedupeStep dist th) st) →
      p ∈ movedSrcs st ∨ ∃ i ∈ imgs, i.rel = p := by
  intro imgs
  induction imgs with
  | nil => intro st p hp; exact Or.inl hp
  | cons i imgs ih =>
    intro st p hp
    rcases ih (dedupeStep dist th st i) p hp with h | h
    · rcases dedupeStep_movedSrcs dist th st i p h with h2 | h2
      · exact Or.inr ⟨i, List.mem_cons_self i imgs, h2.symm⟩
      · exact Or.inl h2
    · obtain ⟨j, hj, hjr⟩ := h
      exact Or.inr ⟨j, List.mem_cons_of_mem i hj, hjr⟩

theorem filterBlackStep_movedSrcs (bm bs : ℚ) (st : FilterBlackState)
    (i : ImgFile ImgStats) (p : List String)
    (hp : p ∈ movedSrcsB (filterBlackStep bm bs st i)) :
    p = i.rel ∨ p ∈ movedSrcsB st := by
  unfold filterBlackStep at hp
  by_cases hc : (!(analyseImage i.info bm bs).1 || (analyseImage i.info bm bs).2) = true
  · simp only [hc, if_true] at hp
    simp only [movedSrcsB, List.map_append, List.mem_append, List.map_cons,
      List.map_nil, List.mem_singleton] at hp
    rcases hp with hp | hp
    · exact Or.inr hp
    · exact Or.inl hp
  · have hc' : (!(analyseImage i.info bm bs).1 || (analyseImage i.info bm bs).2) = false :=
      eq_false_of_ne_true hc
    simp only [hc', Bool.false_eq_true, if_false] at hp
    exact Or.inr hp

theorem filterBlackRun_movedSrcs (bm bs : ℚ) :
    ∀ (imgs : List (ImgFile ImgStats)) (st : FilterBlackState) (p : List String),
      p ∈ movedSrcsB (imgs.foldl (filterBlackStep bm bs) st) →
      p ∈ movedSrcsB st ∨ ∃ i ∈ imgs, i.rel = p := by
  intro imgs
  induction imgs with
  | nil => intro st p hp; exact Or.inl hp
  | cons i imgs ih =>
    intro st p hp
    rcases ih (filterBlackStep bm bs st i) p hp with h | h
    · rcases filterBlackStep_movedSrcs bm bs st i p h with h2 | h2
      · exact Or.inr ⟨i, List.mem_cons_self i imgs, h2.symm⟩
      · exact Or.inl h2
    · obtain ⟨j, hj, hjr⟩ := h
      exact Or.inr ⟨j, List.mem_cons_of_mem i hj, hjr⟩

theorem rel_eq_dir_eq {F G : Type} (i : ImgFile F) (q : ImgFile G)
    (h : i.rel = q.rel) : i.dir = q.dir := by
  unfold ImgFile.rel at h
  exact (List.append_inj' h rfl).1

theorem underTopDir_congr {F G : Type} (d : String) (i : ImgFile F) (q : ImgFile G)
    (h : i.dir = q.dir) : underTopDir d i = underTopDir d q := by
  unfold underTopDir
  rw [h]

/-- **C10.** The in-place passes exclude their own output subtrees from
the scan: `dedupeImages.py` never enumerates a file under
`Duplicates/`, `filterBlackImages.py` never enumerates a file under
`BlackImages/` or `Duplicates/`; consequently a rerun over the
enumerated files never moves (and never re-fingerprints or re-analyses)
any file at a path under those subtrees. -/
theorem inPlace_passes_skip_own_output (F : Type) [DecidableEq F]
    (dist : F → F → Nat) (th : Nat) (tree : List (ImgFile F))
    (dupes0 : List (List String)) (blackMean blackStd : ℚ)
    (treeB : List (ImgFile ImgStats)) (black0 : List (List String)) :
    (∀ p ∈ tree, underTopDir "Duplicates" p = true → p ∉ dedupeEnum tree) ∧
    (∀ p ∈ treeB,
      underTopDir "BlackImages" p = true ∨ underTopDir "Duplicates" p = true →
      p ∉ filterBlackEnum treeB) ∧
    (∀ q : ImgFile F, underTopDir "Duplicates" q = true →
      q.rel ∉ movedSrcs (dedupeImagesRun dist th (dedupeEnum tree) dupes0)) ∧
    (∀ q : ImgFile ImgStats,
      underTopDir "BlackImages" q = true ∨ underTopDir "Duplicates" q = true →
      q.rel ∉ movedSrcsB
        (filterBlackRun blackMean blackStd (filterBlackEnum treeB) black0)) := by
  refine ⟨?_, ?_, ?_, ?_⟩
  · intro p _ hd hmem
    simp [dedupeEnum, List.mem_filter, hd] at hmem
  · intro p _ hd hmem
    rcases hd with hd | hd <;> simp [filterBlackEnum, List.mem_filter, hd] at hmem
  · intro q hq hmem
    rcases dedupeRun_movedSrcs dist th (dedupeEnum tree) ⟨[], dupes0, 0, 0, 0, []⟩
        q.rel hmem with h | h
    · simp [movedSrcs] at h
    · obtain ⟨i, hi, hir⟩ := h
      have hdir := rel_eq_dir_eq i q hir
      have hunder : underTopDir "Duplicates" i = true := by
        rw [underTopDir_congr "Duplicates" i q hdir]; exact hq
      simp [dedupeEnum, List.mem_filter, hunder] at hi
  · intro q hq hmem
    rcases filterBlackRun_movedSrcs blackMean blackStd (filterBlackEnum treeB)
        ⟨black0, 0, 0, []⟩ q.rel hmem with h | h
    · simp [movedSrcsB] at h
    · obtain ⟨i, hi, hir⟩ := h
      have hdir := rel_eq_dir_eq i q hir
      rcases hq with hq | hq
      · have hunder : underTopDir "BlackImages" i = true := by
          rw [underTopDir_congr "BlackImages" i q hdir]; exact hq
        simp [filterBlackEnum, List.mem_filter, hunder] at hi
      · have hunder : underTopDir "Duplicates" i = true := by
          rw [underTopDir_congr "Duplicates" i q hdir]; exact hq
        simp [filterBlackEnum, List.mem_filter, hunder] at hi

/-- Witness for `inPlace_passes_skip_own_output` on one-file trees
already inside the output subtrees. -/
theorem inPlace_passes_skip_own_output_witness :
    (⟨["Duplicates"], "x", ".jpg", some 0⟩ : ImgFile Nat) ∉
      dedupeEnum [(⟨["Duplicates"], "x", ".jpg", some 0⟩ : ImgFile Nat)] ∧
    (⟨["BlackImages"], "y", ".jpg", some ⟨[], []⟩⟩ : ImgFile ImgStats) ∉
      filterBlackEnum [(⟨["BlackImages"], "y", ".jpg", some ⟨[], []⟩⟩ : ImgFile ImgStats)] ∧
    (⟨["Duplicates"], "x", ".jpg", some 0⟩ : ImgFile Nat).rel ∉
      movedSrcs (dedupeImagesRun (fun x y => max x y - min x y) 0
        (dedupeEnum [(⟨["Duplicates"], "x", ".jpg", some 0⟩ : ImgFile Nat)]) []) :=
  ⟨(inPlace_passes_skip_own_output Nat (fun x y => max x y - min x y) 0
      [⟨["Duplicates"], "x", ".jpg", some 0⟩] [] 2 3
      [⟨["BlackImages"], "y", ".jpg", some ⟨[], []⟩⟩] []).1
      ⟨["Duplicates"], "x", ".jpg", some 0⟩ (List.mem_singleton.mpr rfl) (by decide),
    (inPlace_passes_skip_own_output Nat (fun x y => max x y - min x y) 0
      [⟨["Duplicates"], "x", ".jpg", some 0⟩] [] 2 3
      [⟨["BlackImages"], "y", ".jpg", some ⟨[], []⟩⟩] []).2.1
      ⟨["BlackImages"], "y", ".jpg", some ⟨[], []⟩⟩ (List.mem_singleton.mpr rfl)
      (Or.inl (by decide)),
    (inPlace_passes_skip_own_output Nat (fun x y => max x y - min x y) 0
      [⟨["Duplicates"], "x", ".jpg", some 0⟩] [] 2 3
      [⟨["BlackImages"], "y", ".jpg", some ⟨[], []⟩⟩] []).2.2.1
      ⟨["Duplicates"], "x", ".jpg", some 0⟩ (by decide)⟩

end Recovery
